import Mathlib

/-!
Shallow embedding of the plugin lifecycle orchestrator of this repository
(the `PluginManager` class of the plugin management module): registry,
dependency resolution, retrying plugin startup, health monitoring and
recovery dispatch.  All timestamps and counters are `Nat` (the modelled
code never relies on overflow), asynchronous plugin behaviour is modelled
as explicit outcome oracles, and thrown exceptions become `Except` values.
-/

namespace PluginSpec

abbrev Name := String

/-- Health metrics of a registered plugin (the `metrics` field of a
registry entry): last heartbeat timestamp, error count, warning count. -/
structure Metrics where
  lastHeartbeat : Nat
  errorCount : Nat
  warningCount : Nat
deriving DecidableEq, Repr

/-- Recovery strategy of the `errorHandling` configuration. -/
inductive RecoveryStrategy where
  | restart
  | failover
  | terminate
deriving DecidableEq, Repr

/-- Plugin metadata (version and description strings). -/
structure PluginMetadata where
  version : Name
  description : Name
deriving DecidableEq, Repr

/-- Normalized error-handling configuration (all defaults filled in). -/
structure ErrorHandlingConfig where
  retryAttempts : Nat
  timeoutMs : Nat
  recoveryStrategy : RecoveryStrategy
deriving DecidableEq, Repr

/-- Normalized plugin configuration (the `Required` form produced by
config normalization). Options are an opaque key/value payload. -/
structure PluginConfigN where
  metadata : PluginMetadata
  dependencies : List Name
  options : List (Name × Name)
  errorHandling : ErrorHandlingConfig
deriving DecidableEq, Repr

/-- Raw error-handling configuration as supplied by the caller:
absent fields are `none` and are filled by normalization. -/
structure ErrorHandlingInput where
  retryAttempts : Option Nat
  timeoutMs : Option Nat
  recoveryStrategy : Option RecoveryStrategy
deriving DecidableEq, Repr

/-- Raw plugin configuration as supplied to registration. -/
structure PluginConfigInput where
  metadata : Option PluginMetadata
  dependencies : Option (List Name)
  options : Option (List (Name × Name))
  errorHandling : Option ErrorHandlingInput
deriving DecidableEq, Repr

/-- A plugin instance, modelled by its observable behaviour: the outcome
of its k-th startup attempt within one initialization call, and the
outcome of `destroy` (`none`: the optional `destroy` is absent, which
behaves as immediate success; `some b`: present and succeeds iff `b`). -/
structure Plugin where
  initOutcome : Nat → Bool
  destroyOutcome : Option Bool

/-- A registry entry: the instance, its normalized configuration,
its initialization flag and its health metrics. -/
structure PluginEntry where
  plugin : Plugin
  config : PluginConfigN
  isInitialized : Bool
  metrics : Metrics

/-- The manager's mutable state: the plugin map and the dependency map,
both as insertion-ordered association lists (JavaScript `Map` iteration
order is insertion order). -/
structure ManagerState where
  plugins : List (Name × PluginEntry)
  dependencies : List (Name × List Name)

/-- Errors thrown by the manager.  `outOfFuel` is an artifact of the
fuelled resolver below and is proved unreachable. -/
inductive PMError where
  | duplicateRegistration (name : Name)
  | invalidDependencies (name : Name)
  | circularDependency (path : List Name)
  | missingDependency (dep requiredBy : Name)
  | pluginNotFound (name : Name)
  | initFailed (name : Name) (attempts : Nat)
  | outOfFuel
deriving DecidableEq, Repr

/-- Log events emitted by the manager's operations. -/
inductive LogEvent where
  | registered (name : Name)
  | initOk (name : Name)
  | initAttemptFailed (name : Name) (attempt : Nat)
  | heartbeatTimeout (name : Name)
  | restarting (name : Name)
  | restartFailed (name : Name)
  | terminating (name : Name)
  | termFailed (name : Name)
  | failoverStarted (name : Name)
deriving DecidableEq, Repr

/-- Association-list lookup (JavaScript `Map.get`). -/
def mapGet {β : Type} (m : List (Name × β)) (k : Name) : Option β :=
  match m with
  | [] => none
  | (k', v) :: rest => if k' = k then some v else mapGet rest k

/-- Association-list update (JavaScript `Map.set`): replace the entry in
place if the key is present, append otherwise. -/
def mapSet {β : Type} (m : List (Name × β)) (k : Name) (v : β) : List (Name × β) :=
  match m with
  | [] => [(k, v)]
  | (k', v') :: rest => if k' = k then (k, v) :: rest else (k', v') :: mapSet rest k v

/-- Association-list removal (JavaScript `Map.delete`). -/
def mapDelete {β : Type} (m : List (Name × β)) (k : Name) : List (Name × β) :=
  m.filter (fun kv => decide (kv.1 ≠ k))

/-- Registered plugin ids, in registration order. -/
def pluginNames (s : ManagerState) : List Name :=
  s.plugins.map Prod.fst

/-- Whether an id is registered (`this.plugins.has(name)`). -/
def hasPlugin (s : ManagerState) (n : Name) : Bool :=
  (mapGet s.plugins n).isSome

/-- The dependency ids recorded for an id (`this.dependencies.get(name)`,
empty when the id has no dependency entry). -/
def depsOf (s : ManagerState) (n : Name) : List Name :=
  (mapGet s.dependencies n).getD []

/-- Deduplicate a list keeping the first occurrence of each element
(JavaScript `new Set(list)` iteration order). -/
def dedupFirst (l : List Name) : List Name :=
  l.foldl (fun acc a => if a ∈ acc then acc else acc ++ [a]) []

/-- Dependency-loop body of the resolver's `visit`: walk the remaining
dependency ids of `name`; a dependency that is not registered raises
the missing-dependency error, otherwise it is visited recursively. -/
def depFold (s : ManagerState)
    (rec : Name → List Name → List Name → Except PMError (List Name)) :
    List Name → Name → List Name → List Name → Except PMError (List Name)
  | [], _, _, order => .ok order
  | d :: rest, name, path, order =>
    if hasPlugin s d then
      match rec d path order with
      | .error e => .error e
      | .ok order₁ => depFold s rec rest name path order₁
    else .error (.missingDependency d name)

/-- The resolver's recursive `visit`, with a structural fuel parameter
(the recursion path grows strictly at each level, so a fuel exceeding the
number of registered plugins is proved to never run out).  An id on the
current recursion path raises the circular-dependency error carrying the
path followed by the revisited id; an already emitted id is skipped;
otherwise its dependencies are walked and the id is emitted after them. -/
def visitF (s : ManagerState) (fuel : Nat) :
    Name → List Name → List Name → Except PMError (List Name) :=
  match fuel with
  | 0 => fun _ _ _ => .error .outOfFuel
  | f + 1 => fun name path order =>
    if name ∈ path then .error (.circularDependency (path ++ [name]))
    else if name ∈ order then .ok order
    else
      match depFold s (visitF s f) (depsOf s name) name (path ++ [name]) order with
      | .error e => .error e
      | .ok order₁ => .ok (order₁ ++ [name])

/-- Top-level loop of the resolver: visit every registered id in
registration order, each with a fresh empty recursion path. -/
def visitAll (v : Name → List Name → List Name → Except PMError (List Name)) :
    List Name → List Name → Except PMError (List Name)
  | [], order => .ok order
  | n :: rest, order =>
    match v n [] order with
    | .error e => .error e
    | .ok order₁ => visitAll v rest order₁

/-- `resolveInitializationOrder`: post-order depth-first walk over the
dependency graph producing the initialization order. -/
def resolveInitializationOrder (s : ManagerState) : Except PMError (List Name) :=
  visitAll (visitF s (s.plugins.length + 1)) (pluginNames s) []

/-- Output of one single-plugin initialization call: final state, number
of startup invocations performed, backoff waits (ms) actually issued,
log events, and the call's outcome (`error` models the thrown
exception). -/
structure InitOut where
  state : ManagerState
  calls : Nat
  sleeps : List Nat
  logs : List LogEvent
  result : Except PMError Unit

/-- Intermediate result of the retry loop on a single entry. -/
structure LoopOut where
  entry : PluginEntry
  calls : Nat
  sleeps : List Nat
  logs : List LogEvent
  result : Except PMError Unit

/-- The retry loop of single-plugin initialization (`while attempts <
retryAttempts`), for the entry `e` of plugin `name`.  `behav k` is the
outcome of the k-th startup invocation (a timeout counts as a failed
invocation); `attempts` is the loop counter and `remaining` the number
of iterations the guard still allows (callers pass
`retryAttempts - attempts`).  A failed attempt increments
`metrics.errorCount`; the last allowed failure throws the
initialization-failure error, earlier failures wait `1000 ms ×
attemptNumber` before retrying; a success sets `isInitialized`. -/
def initLoop (name : Name) (behav : Nat → Bool) (retryAttempts : Nat) :
    Nat → PluginEntry → Nat → LoopOut
  | _, e, 0 => ⟨e, 0, [], [], .ok ()⟩
  | attempts, e, r + 1 =>
    if behav attempts then
      ⟨{ e with isInitialized := true }, 1, [], [.initOk name], .ok ()⟩
    else
      let attempts' := attempts + 1
      let e' := { e with metrics := { e.metrics with errorCount := e.metrics.errorCount + 1 } }
      if attempts' = retryAttempts then
        ⟨e', 1, [], [.initAttemptFailed name attempts'], .error (.initFailed name attempts')⟩
      else
        let rest := initLoop name behav retryAttempts attempts' e' r
        ⟨rest.entry, rest.calls + 1, 1000 * attempts' :: rest.sleeps,
          .initAttemptFailed name attempts' :: rest.logs, rest.result⟩

/-- Single-plugin initialization (`initializePlugin`): look up the entry
(an absent id throws the plugin-not-found error), then run the retry
loop and store the mutated entry back. -/
def initializePlugin (s : ManagerState) (name : Name) (behav : Nat → Bool) : InitOut :=
  match mapGet s.plugins name with
  | none => ⟨s, 0, [], [], .error (.pluginNotFound name)⟩
  | some e =>
    let n := e.config.errorHandling.retryAttempts
    let o := initLoop name behav n 0 e n
    ⟨{ s with plugins := mapSet s.plugins name o.entry }, o.calls, o.sleeps, o.logs, o.result⟩

/-- Output of whole-registry initialization: final state, the
`(id, startup invocation count)` pairs in processing order, and outcome. -/
structure InitAllOut where
  state : ManagerState
  attempted : List (Name × Nat)
  result : Except PMError Unit

/-- Sequential initialization of a resolved order; the first failing
plugin aborts the remaining ones (the thrown error propagates). -/
def initSeq (behav : Name → Nat → Bool) : ManagerState → List Name → InitAllOut
  | s, [] => ⟨s, [], .ok ()⟩
  | s, n :: rest =>
    let o := initializePlugin s n (behav n)
    match o.result with
    | .error e => ⟨o.state, [(n, o.calls)], .error e⟩
    | .ok _ =>
      let r := initSeq behav o.state rest
      ⟨r.state, (n, o.calls) :: r.attempted, r.result⟩

/-- `initializePlugins`: resolve the order, then initialize strictly
sequentially. -/
def initializePlugins (s : ManagerState) (behav : Name → Nat → Bool) : InitAllOut :=
  match resolveInitializationOrder s with
  | .error e => ⟨s, [], .error e⟩
  | .ok order => initSeq behav s order

/-- Output of termination / restart: final state, startup invocation
count (restarts re-run initialization), logs, outcome. -/
structure RecoverOut where
  state : ManagerState
  calls : Nat
  logs : List LogEvent
  result : Except PMError Unit

/-- `terminatePlugin`: attempt `destroy`; only on success (or when
`destroy` is absent) remove the entry and its dependency edges; on
failure log the error and keep the entry.  The whole body is wrapped in
a catch, so the call never throws (an absent entry makes the body fail
on the undefined entry, which is likewise caught and logged). -/
def terminatePlugin (s : ManagerState) (name : Name) : RecoverOut :=
  match mapGet s.plugins name with
  | none => ⟨s, 0, [.terminating name, .termFailed name], .ok ()⟩
  | some e =>
    match e.plugin.destroyOutcome with
    | some false => ⟨s, 0, [.terminating name, .termFailed name], .ok ()⟩
    | _ => ⟨⟨mapDelete s.plugins name, mapDelete s.dependencies name⟩,
            0, [.terminating name], .ok ()⟩

/-- `restartPlugin`: inside a catch-all block, attempt `destroy`, clear
`isInitialized`, and re-run single-plugin initialization.  A `destroy`
failure is caught (aborting the rest of the block), and an
initialization failure is caught as well; the call never throws. -/
def restartPlugin (s : ManagerState) (name : Name) (behav : Nat → Bool) : RecoverOut :=
  match mapGet s.plugins name with
  | none => ⟨s, 0, [.restarting name, .restartFailed name], .ok ()⟩
  | some e =>
    match e.plugin.destroyOutcome with
    | some false => ⟨s, 0, [.restarting name, .restartFailed name], .ok ()⟩
    | _ =>
      let s₁ := { s with plugins := mapSet s.plugins name { e with isInitialized := false } }
      let o := initializePlugin s₁ name behav
      match o.result with
      | .ok _ => ⟨o.state, o.calls, .restarting name :: o.logs, .ok ()⟩
      | .error _ => ⟨o.state, o.calls, .restarting name :: (o.logs ++ [.restartFailed name]), .ok ()⟩

/-- `failoverPlugin`: only logs; the concrete behaviour is an external
extension point. -/
def failoverPlugin (s : ManagerState) (name : Name) : RecoverOut :=
  ⟨s, 0, [.failoverStarted name], .ok ()⟩

/-- `handlePluginFailure`: dispatch on the entry's recovery strategy. -/
def handlePluginFailure (s : ManagerState) (name : Name) (behav : Nat → Bool) : ManagerState :=
  match mapGet s.plugins name with
  | none => s
  | some e =>
    match e.config.errorHandling.recoveryStrategy with
    | .restart => (restartPlugin s name behav).state
    | .failover => (failoverPlugin s name).state
    | .terminate => (terminatePlugin s name).state

/-- Ids warned about by one health-monitor tick at time `now`: entries
whose heartbeat is strictly older than the 30,000 ms threshold. -/
def tickWarnings (s : ManagerState) (now : Nat) : List Name :=
  (s.plugins.filter (fun kv => decide (30000 < now - kv.2.metrics.lastHeartbeat))).map Prod.fst

/-- Ids whose recovery is dispatched by one tick: entries with
`errorCount` strictly above the threshold of 10. -/
def tickDispatch (s : ManagerState) : List Name :=
  (s.plugins.filter (fun kv => decide (10 < kv.2.metrics.errorCount))).map Prod.fst

/-- State after one health-monitor tick: the dispatch decisions are
taken on the tick's snapshot, then the recovery handlers (which the
source fires without awaiting) run. -/
def tickStep (s : ManagerState) (behav : Name → Nat → Bool) : ManagerState :=
  (tickDispatch s).foldl (fun st n => handlePluginFailure st n (behav n)) s

/-- The monitor's tick times up to `T`: the interval fires every
10,000 ms from manager construction (time 0). -/
def tickTimes (T : Nat) : List Nat :=
  (List.range (T / 10000)).map (fun k => 10000 * (k + 1))

/-- All heartbeat warnings logged by time `T` over a state the ticks do
not mutate, as `(tick time, id)` pairs. -/
def monitorWarnings (s : ManagerState) (T : Nat) : List (Nat × Name) :=
  (tickTimes T).flatMap (fun t => (tickWarnings s t).map (fun n => (t, n)))

/-- `normalizeConfig`: fill in the documented defaults (metadata
placeholder, empty dependency list, empty options, 3 retry attempts,
5000 ms timeout, restart strategy).  A field supplied by the caller
overrides its default. -/
def normalizeConfig (cfg : PluginConfigInput) : PluginConfigN :=
  { metadata := cfg.metadata.getD ⟨"1.0.0", "No description provided"⟩
    dependencies := cfg.dependencies.getD []
    options := cfg.options.getD []
    errorHandling :=
      { retryAttempts := (cfg.errorHandling.bind (fun h => h.retryAttempts)).getD 3
        timeoutMs := (cfg.errorHandling.bind (fun h => h.timeoutMs)).getD 5000
        recoveryStrategy := (cfg.errorHandling.bind (fun h => h.recoveryStrategy)).getD .restart } }

/-- `validatePluginConfig`: reject an already registered id, then reject
a dependency list containing an empty (falsy) id. -/
def validatePluginConfig (s : ManagerState) (name : Name) (cfg : PluginConfigInput) :
    Except PMError Unit :=
  if (mapGet s.plugins name).isSome then .error (.duplicateRegistration name)
  else if (cfg.dependencies.getD []).any (fun d => d = "") then
    .error (.invalidDependencies name)
  else .ok ()

/-- `registerPlugin`: validate, normalize, insert the entry with fresh
metrics (`lastHeartbeat = now`, counters zero), and record the
dependency set (deduplicated, first occurrence kept) when non-empty. -/
def registerPlugin (s : ManagerState) (now : Nat) (name : Name) (p : Plugin)
    (cfg : PluginConfigInput) : Except PMError ManagerState :=
  match validatePluginConfig s name cfg with
  | .error e => .error e
  | .ok _ =>
    let nc := normalizeConfig cfg
    let entry : PluginEntry :=
      { plugin := p, config := nc, isInitialized := false, metrics := ⟨now, 0, 0⟩ }
    .ok ⟨mapSet s.plugins name entry,
         if nc.dependencies.isEmpty then s.dependencies
         else mapSet s.dependencies name (dedupFirst nc.dependencies)⟩

/-- The manager's operations, with plugin behaviour supplied as outcome
oracles. -/
inductive Op where
  | regOp (now : Nat) (name : Name) (p : Plugin) (cfg : PluginConfigInput)
  | initAllOp (behav : Name → Nat → Bool)
  | initOneOp (name : Name) (behav : Nat → Bool)
  | tickOp (behav : Name → Nat → Bool)
  | restartOp (name : Name) (behav : Nat → Bool)
  | terminateOp (name : Name)
  | failoverOp (name : Name)

/-- State transition of one manager operation (a thrown registration
error leaves the state unchanged: the source throws before mutating). -/
def stepOp (s : ManagerState) : Op → ManagerState
  | .regOp now name p cfg => ((registerPlugin s now name p cfg).toOption).getD s
  | .initAllOp behav => (initializePlugins s behav).state
  | .initOneOp name behav => (initializePlugin s name behav).state
  | .tickOp behav => tickStep s behav
  | .restartOp name behav => (restartPlugin s name behav).state
  | .terminateOp name => (terminatePlugin s name).state
  | .failoverOp name => (failoverPlugin s name).state

/-- Retry-attempt budget of a registered plugin (0 for an absent id). -/
def retryOf (s : ManagerState) (p : Name) : Nat :=
  ((mapGet s.plugins p).map (fun e => e.config.errorHandling.retryAttempts)).getD 0

/-- The entry `e` with its error count incremented `k` times. -/
def bumpErr (e : PluginEntry) (k : Nat) : PluginEntry :=
  { e with metrics := { e.metrics with errorCount := e.metrics.errorCount + k } }

/-- `[g (a+1), g (a+2), …, g (a+m)]`: the shape of the sleep and log
lists produced by the retry loop starting at attempt counter `a`. -/
def shiftList {β : Type} (g : Nat → β) (a : Nat) : Nat → List β
  | 0 => []
  | m + 1 => g (a + 1) :: shiftList g (a + 1) m

/-- One dependency-declaration step: `a` declares a dependency on `b`. -/
def DStep (s : ManagerState) (a b : Name) : Prop :=
  b ∈ depsOf s a

/-- The dependency relation restricted to registered ids. -/
def Edge (s : ManagerState) (a b : Name) : Prop :=
  a ∈ pluginNames s ∧ b ∈ pluginNames s ∧ b ∈ depsOf s a

/-- `order` lists every id after all its recorded dependencies. -/
def DepsClosed (s : ManagerState) (order : List Name) : Prop :=
  ∀ l₁ a l₂, order = l₁ ++ a :: l₂ → ∀ d ∈ depsOf s a, d ∈ l₁

/-- Invariant of the emitted order during resolution. -/
def OrderInv (s : ManagerState) (order : List Name) : Prop :=
  order.Nodup ∧ (∀ x ∈ order, x ∈ pluginNames s) ∧ DepsClosed s order

/-- `b` extends `a` on the right. -/
def Extends (a b : List Name) : Prop :=
  ∃ t, b = a ++ t

/-- A non-empty dependency cycle among registered ids: consecutive
elements are dependency steps and the last element depends on the
first. -/
def IsCycle (s : ManagerState) (c : List Name) : Prop :=
  ∃ a l, c = a :: l ∧ List.Chain' (DStep s) (a :: l) ∧
    DStep s ((a :: l).getLastD a) a ∧ ∀ x ∈ c, x ∈ pluginNames s

/-- Whether a resolution outcome is the circular-dependency error. -/
def isCircularErr (r : Except PMError (List Name)) : Bool :=
  match r with
  | .error (.circularDependency _) => true
  | _ => false

/-- Whether a resolution outcome is the missing-dependency error. -/
def isMissingErr (r : Except PMError (List Name)) : Bool :=
  match r with
  | .error (.missingDependency _ _) => true
  | _ => false

/-- Everything the resolver can report as an error: either the
circular-dependency error, whose payload is a dependency chain of
registered ids ending in an id it already contains, or the
missing-dependency error naming an unregistered dependency id and the
registered plugin requiring it. -/
def ErrSpec (s : ManagerState) (e : PMError) : Prop :=
  (∃ p m, e = .circularDependency (p ++ [m]) ∧ m ∈ p ∧ (∀ x ∈ p, x ∈ pluginNames s) ∧
    List.Chain' (DStep s) (p ++ [m])) ∨
  (∃ d m, e = .missingDependency d m ∧ m ∈ pluginNames s ∧ d ∈ depsOf s m ∧ d ∉ pluginNames s)

/-- Precondition of the resolver's recursive visit: the visited id is
registered, the recursion path is a duplicate-free dependency chain of
registered ids ending just before the visited id, the fuel dominates
the number of ids the path may still grow by, and the emitted order
satisfies its invariant and is disjoint from the path. -/
def VisitPre (s : ManagerState) (fuel : Nat) (name : Name) (path order : List Name) : Prop :=
  name ∈ pluginNames s ∧ (∀ x ∈ path, x ∈ pluginNames s) ∧ path.Nodup ∧
  List.Chain' (DStep s) (path ++ [name]) ∧
  (pluginNames s).length + 1 ≤ fuel + path.length ∧
  OrderInv s order ∧ (∀ x ∈ path, x ∉ order)

/-- Postcondition of a successful visit: the order grows on the right,
keeps its invariant, now contains the visited id, and none of the new
ids lies on the recursion path. -/
def VisitPostOk (s : ManagerState) (name : Name) (path order order' : List Name) : Prop :=
  Extends order order' ∧ OrderInv s order' ∧ name ∈ order' ∧
  ∀ x ∈ order', x ∉ order → x ∉ path

/-- A plugin whose startup always succeeds and which has no `destroy`. -/
def pluginOk : Plugin := ⟨fun _ => true, none⟩

/-- A plugin whose `destroy` is present and fails. -/
def pluginDestroyFail : Plugin := ⟨fun _ => true, some false⟩

/-- A plugin whose `destroy` is present and succeeds. -/
def pluginDestroyOk : Plugin := ⟨fun _ => true, some true⟩

/-- A fully-defaulted normalized configuration with given dependencies. -/
def baseConfig (deps : List Name) : PluginConfigN :=
  ⟨⟨"1.0.0", "No description provided"⟩, deps, [], ⟨3, 5000, .restart⟩⟩

/-- A freshly registered entry (registration time 0) for plugin `p`. -/
def mkEntry (p : Plugin) (deps : List Name) : PluginEntry :=
  ⟨p, baseConfig deps, false, ⟨0, 0, 0⟩⟩

/-- A registry built from `(id, dependency ids)` pairs, as produced by
registering each pair in order at time 0. -/
def mkState (l : List (Name × List Name)) : ManagerState :=
  ⟨l.map (fun q => (q.1, mkEntry pluginOk q.2)),
   (l.filter (fun q => !q.2.isEmpty)).map (fun q => (q.1, dedupFirst q.2))⟩

/-- A registry with one dependency-free plugin. -/
def exOne : ManagerState := mkState [("p", [])]

/-- Registry whose first plugin has an unregistered dependency and whose
other two plugins form a two-cycle. -/
def exS5 : ManagerState := mkState [("a", ["ghost"]), ("b", ["c"]), ("c", ["b"])]

/-- Registry with a two-cycle reached before an unregistered
dependency. -/
def exS9 : ManagerState := mkState [("a", ["b"]), ("b", ["a", "ghost"])]

/-- A registry that is just a two-cycle. -/
def exCyc : ManagerState := mkState [("b", ["c"]), ("c", ["b"])]

/-- An acyclic registry with one unregistered dependency. -/
def exMiss : ManagerState := mkState [("a", ["ghost"])]

/-- Registration input requesting zero retry attempts. -/
def cfgZeroRetry : PluginConfigInput :=
  ⟨none, none, none, some ⟨some 0, none, none⟩⟩

/-- The registry obtained by registering one plugin with
`retryAttempts = 0`. -/
def exS3 : ManagerState :=
  ((registerPlugin ⟨[], []⟩ 0 "p" pluginOk cfgZeroRetry).toOption).getD ⟨[], []⟩

/-- A registry with one initialized plugin whose `destroy` fails. -/
def exS6 : ManagerState :=
  ⟨[("p", ⟨pluginDestroyFail, baseConfig [], true, ⟨0, 5, 0⟩⟩)], []⟩

/-- A three-plugin chain used for sequential-initialization scenarios. -/
def exS4 : ManagerState := mkState [("a", []), ("b", ["a"]), ("c", ["b"])]

/-- Behaviour for `exS4`: plugin `a` starts fine, plugin `b` always
fails to start. -/
def exS4behav : Name → Nat → Bool := fun n _ => n ≠ "b"

/-- A registry with two plugins for termination scenarios: `p` has a
failing `destroy` and depends on `q`; `q` has no `destroy`. -/
def exS2 : ManagerState :=
  ⟨[("p", ⟨pluginDestroyFail, baseConfig ["q"], true, ⟨0, 0, 0⟩⟩),
    ("q", ⟨pluginOk, baseConfig [], true, ⟨0, 0, 0⟩⟩)],
   [("p", ["q"])]⟩

/-- A registry with one plugin past the error threshold. -/
def exHigh : ManagerState :=
  ⟨[("p", ⟨pluginOk, baseConfig [], true, ⟨0, 11, 0⟩⟩)], []⟩

/-- The registry obtained by registering `p` with an empty
configuration into the empty registry at time 0. -/
def exReg : ManagerState :=
  ((registerPlugin ⟨[], []⟩ 0 "p" pluginOk ⟨none, none, none, none⟩).toOption).getD ⟨[], []⟩

/-! ### Association-list map lemmas -/

theorem mapGet_mapSet_self {β : Type} (m : List (Name × β)) (k : Name) (v : β) :
    mapGet (mapSet m k v) k = some v := by
  induction m with
  | nil => simp [mapGet, mapSet]
  | cons kv rest ih =>
    by_cases h : kv.1 = k
    · simp [mapGet, mapSet, h]
    · simp [mapGet, mapSet, h, ih]

theorem mapGet_mapSet_ne {β : Type} (m : List (Name × β)) (k k' : Name) (v : β)
    (h : k' ≠ k) : mapGet (mapSet m k v) k' = mapGet m k' := by
  induction m with
  | nil =>
    simp only [mapSet, mapGet]
    rw [if_neg (fun he => h he.symm)]
  | cons kv rest ih =>
    by_cases hk : kv.1 = k
    · have hne : ¬(k = k') := fun he => h he.symm
      have hne' : ¬(kv.1 = k') := by rw [hk]; exact hne
      simp only [mapSet, if_pos hk, mapGet, if_neg hne, if_neg hne']
    · by_cases hk' : kv.1 = k'
      · simp only [mapSet, if_neg hk, mapGet, if_pos hk']
      · simp only [mapSet, if_neg hk, mapGet, if_neg hk', ih]

theorem mapGet_mapDelete_self {β : Type} (m : List (Name × β)) (k : Name) :
    mapGet (mapDelete m k) k = none := by
  induction m with
  | nil => rfl
  | cons kv rest ih =>
    simp only [mapDelete, ne_eq, decide_not] at ih ⊢
    by_cases h : kv.1 = k <;> simp [List.filter_cons, h, mapGet, ih]

theorem mapGet_mapDelete_ne {β : Type} (m : List (Name × β)) (k k' : Name)
    (h : k' ≠ k) : mapGet (mapDelete m k) k' = mapGet m k' := by
  induction m with
  | nil => rfl
  | cons kv rest ih =>
    simp only [mapDelete, ne_eq, decide_not] at ih ⊢
    have hne : ¬ k = k' := fun he => h he.symm
    by_cases hk : kv.1 = k
    · simp [List.filter_cons, hk, mapGet, hne, ih]
    · by_cases hk' : kv.1 = k' <;> simp [List.filter_cons, hk, hk', h, mapGet, ih]

theorem mapGet_isSome_iff {β : Type} (m : List (Name × β)) (k : Name) :
    (mapGet m k).isSome = true ↔ k ∈ m.map Prod.fst := by
  induction m with
  | nil => simp [mapGet]
  | cons kv rest ih =>
    by_cases h : kv.1 = k
    · simp [mapGet, h]
    · simp only [mapGet, if_neg h, List.map_cons, List.mem_cons]
      rw [ih]
      constructor
      · exact Or.inr
      · rintro (he | hm)
        · exact absurd he.symm h
        · exact hm

theorem mapGet_mem {β : Type} {m : List (Name × β)} {k : Name} {v : β}
    (h : mapGet m k = some v) : (k, v) ∈ m := by
  induction m with
  | nil => simp [mapGet] at h
  | cons kv rest ih =>
    obtain ⟨k', v'⟩ := kv
    by_cases hk : k' = k
    · simp only [mapGet, if_pos hk, Option.some_inj] at h
      subst hk
      subst h
      exact List.mem_cons_self _ _
    · simp only [mapGet, if_neg hk] at h
      exact List.mem_cons_of_mem _ (ih h)

theorem mapGet_eq_none_iff {β : Type} (m : List (Name × β)) (k : Name) :
    mapGet m k = none ↔ k ∉ m.map Prod.fst := by
  rw [← Option.not_isSome_iff_eq_none, not_iff_not, mapGet_isSome_iff]

theorem hasPlugin_iff (s : ManagerState) (n : Name) :
    hasPlugin s n = true ↔ n ∈ pluginNames s := by
  rw [hasPlugin, pluginNames, mapGet_isSome_iff]

theorem mem_pluginNames_iff_isSome (s : ManagerState) (n : Name) :
    n ∈ pluginNames s ↔ (mapGet s.plugins n).isSome = true :=
  (mapGet_isSome_iff _ _).symm

theorem mapSet_map_fst_of_mem {β : Type} {m : List (Name × β)} {k : Name} (v : β)
    (h : k ∈ m.map Prod.fst) : (mapSet m k v).map Prod.fst = m.map Prod.fst := by
  induction m with
  | nil => simp at h
  | cons kv rest ih =>
    by_cases hk : kv.1 = k
    · simp [mapSet, hk]
    · have h' : k ∈ rest.map Prod.fst := by
        rcases List.mem_map.mp h with ⟨q, hq, he⟩
        rcases List.mem_cons.mp hq with h1 | h2
        · exact absurd (h1 ▸ he) hk
        · exact List.mem_map.mpr ⟨q, h2, he⟩
      simp [mapSet, hk, ih h']

/-! ### Resolver correctness -/

theorem extends_refl (l : List Name) : Extends l l :=
  ⟨[], (List.append_nil l).symm⟩

theorem extends_trans {a b c : List Name} (h1 : Extends a b) (h2 : Extends b c) :
    Extends a c := by
  obtain ⟨t1, rfl⟩ := h1
  obtain ⟨t2, rfl⟩ := h2
  exact ⟨t1 ++ t2, List.append_assoc a t1 t2⟩

theorem extends_mem {a b : List Name} {x : Name} (h : Extends a b) (hx : x ∈ a) :
    x ∈ b := by
  obtain ⟨t, rfl⟩ := h
  exact List.mem_append_left t hx

theorem extends_concat (l : List Name) (x : Name) : Extends l (l ++ [x]) :=
  ⟨[x], rfl⟩

theorem nodup_subset_length {l names : List Name} (h1 : l.Nodup)
    (h2 : ∀ x ∈ l, x ∈ names) : l.length ≤ names.length :=
  (h1.subperm fun _ hx => h2 _ hx).length_le

theorem depsClosed_nil (s : ManagerState) : DepsClosed s [] := by
  intro l₁ a l₂ h
  cases l₁ <;> simp at h

theorem concat_split {α : Type} {l l₁ l₂ : List α} {a x : α}
    (h : l ++ [x] = l₁ ++ a :: l₂) :
    (l₁ = l ∧ a = x ∧ l₂ = []) ∨ ∃ l₂', l₂ = l₂' ++ [x] ∧ l = l₁ ++ a :: l₂' := by
  rcases l₂.eq_nil_or_concat with rfl | ⟨q, y, rfl⟩
  · have := List.append_inj' h rfl
    exact Or.inl ⟨this.1.symm, ((List.cons.injEq _ _ _ _).mp this.2).1.symm, rfl⟩
  · simp only [List.concat_eq_append] at h ⊢
    have h' : l ++ [x] = (l₁ ++ a :: q) ++ [y] := by
      rw [h]
      simp
    have := List.append_inj' h' rfl
    have hyx : x = y := ((List.cons.injEq _ _ _ _).mp this.2).1
    exact Or.inr ⟨q, by rw [hyx], this.1⟩

theorem depsClosed_append {s : ManagerState} {order : List Name} {name : Name}
    (h : DepsClosed s order) (hd : ∀ d ∈ depsOf s name, d ∈ order) :
    DepsClosed s (order ++ [name]) := by
  intro l₁ a l₂ he d hdep
  rcases concat_split he with ⟨rfl, rfl, rfl⟩ | ⟨l₂', rfl, rfl⟩
  · exact hd d hdep
  · exact h l₁ a l₂' rfl d hdep

theorem chain'_snoc {R : Name → Name → Prop} {l : List Name} {a b : Name}
    (hc : List.Chain' R l) (hl : l.getLast? = some a) (hr : R a b) :
    List.Chain' R (l ++ [b]) := by
  rw [List.chain'_append]
  refine ⟨hc, List.chain'_singleton b, ?_⟩
  intro x hx y hy
  simp only [List.head?_cons, Option.mem_def, Option.some.injEq] at hy
  rw [hl] at hx
  simp only [Option.mem_def, Option.some.injEq] at hx
  rw [← hx, ← hy]
  exact hr

theorem chain'_transGen {R : Name → Name → Prop} :
    ∀ (l : List Name) (a b : Name), List.Chain' R (a :: (l ++ [b])) →
      Relation.TransGen R a b := by
  intro l
  induction l with
  | nil =>
    intro a b h
    simp only [List.nil_append] at h
    rw [List.chain'_cons] at h
    exact Relation.TransGen.single h.1
  | cons c t ih =>
    intro a b h
    rw [List.cons_append, List.chain'_cons] at h
    exact Relation.TransGen.head h.1 (ih c b h.2)

theorem chain'_edge {s : ManagerState} :
    ∀ {l : List Name}, List.Chain' (DStep s) l → (∀ x ∈ l, x ∈ pluginNames s) →
      List.Chain' (Edge s) l := by
  intro l
  induction l with
  | nil => intro _ _; exact List.chain'_nil
  | cons a t ih =>
    intro hc hm
    cases t with
    | nil => exact List.chain'_singleton a
    | cons b t' =>
      rw [List.chain'_cons] at hc ⊢
      refine ⟨⟨hm a (by simp), hm b (by simp), hc.1⟩, ih hc.2 ?_⟩
      intro x hx
      exact hm x (List.mem_cons_of_mem a hx)

theorem depFold_spec (s : ManagerState) (f : Nat)
    (hrec : ∀ name path order, VisitPre s f name path order →
      (∀ order', visitF s f name path order = .ok order' → VisitPostOk s name path order order') ∧
      (∀ e, visitF s f name path order = .error e → ErrSpec s e)) :
    ∀ (ds : List Name) (name : Name) (path order : List Name),
      name ∈ pluginNames s →
      (∀ x ∈ path, x ∈ pluginNames s) → path.Nodup →
      List.Chain' (DStep s) path → path.getLast? = some name →
      (∀ d ∈ ds, d ∈ depsOf s name) →
      (pluginNames s).length + 1 ≤ f + path.length →
      OrderInv s order → (∀ x ∈ path, x ∉ order) →
      (∀ order', depFold s (visitF s f) ds name path order = .ok order' →
        Extends order order' ∧ OrderInv s order' ∧ (∀ d ∈ ds, d ∈ order') ∧
        ∀ x ∈ order', x ∉ order → x ∉ path) ∧
      (∀ e, depFold s (visitF s f) ds name path order = .error e → ErrSpec s e) := by
  intro ds
  induction ds with
  | nil =>
    intro name path order _ _ _ _ _ _ _ hoi _
    constructor
    · intro order' hok
      simp only [depFold] at hok
      cases hok
      exact ⟨extends_refl _, hoi, by simp, fun x hx hnx => absurd hx hnx⟩
    · intro e herr
      exact Except.noConfusion herr
  | cons d rest ih =>
    intro name path order hname hpathmem hnodup hchain hlast hds hfuel hoi hdisj
    by_cases hd : hasPlugin s d
    · have hdN : d ∈ pluginNames s := (hasPlugin_iff s d).mp hd
      have hdep : d ∈ depsOf s name := hds d (by simp)
      have hpre : VisitPre s f d path order :=
        ⟨hdN, hpathmem, hnodup, chain'_snoc hchain hlast hdep, hfuel, hoi, hdisj⟩
      cases hv : visitF s f d path order with
      | error e =>
        have hspec := (hrec d path order hpre).2 e hv
        constructor
        · intro order' hok
          simp [depFold, hd, hv] at hok
        · intro e' herr
          simp [depFold, hd, hv] at herr
          cases herr
          exact hspec
      | ok order₁ =>
        obtain ⟨hex1, hoi1, hdmem, hnew1⟩ := (hrec d path order hpre).1 order₁ hv
        have hdisj1 : ∀ x ∈ path, x ∉ order₁ := by
          intro x hx hxo1
          by_cases hxo : x ∈ order
          · exact hdisj x hx hxo
          · exact hnew1 x hxo1 hxo hx
        have ihall := ih name path order₁ hname hpathmem hnodup hchain hlast
          (fun d' hd' => hds d' (List.mem_cons_of_mem d hd')) hfuel hoi1 hdisj1
        constructor
        · intro order' hok
          simp [depFold, hd, hv] at hok
          obtain ⟨hex2, hoi2, hrest, hnew2⟩ := ihall.1 order' hok
          refine ⟨extends_trans hex1 hex2, hoi2, ?_, ?_⟩
          · intro d' hd'
            rcases List.mem_cons.mp hd' with rfl | hmem
            · exact extends_mem hex2 hdmem
            · exact hrest d' hmem
          · intro x hxo' hxo
            by_cases hx1 : x ∈ order₁
            · exact hnew1 x hx1 hxo
            · exact hnew2 x hxo' hx1
        · intro e herr
          simp [depFold, hd, hv] at herr
          exact ihall.2 e herr
    · have hdN : d ∉ pluginNames s := fun hmem => hd ((hasPlugin_iff s d).mpr hmem)
      constructor
      · intro order' hok
        simp [depFold, hd] at hok
      · intro e herr
        simp [depFold, hd] at herr
        cases herr
        exact Or.inr ⟨d, name, rfl, hname, hds d (by simp), hdN⟩

theorem visitF_spec (s : ManagerState) :
    ∀ (fuel : Nat) (name : Name) (path order : List Name),
      VisitPre s fuel name path order →
      (∀ order', visitF s fuel name path order = .ok order' →
        VisitPostOk s name path order order') ∧
      (∀ e, visitF s fuel name path order = .error e → ErrSpec s e) := by
  intro fuel
  induction fuel with
  | zero =>
    intro name path order pre
    obtain ⟨hname, hpathmem, hnodup, hchain, hfuel, hoi, hdisj⟩ := pre
    have hle : path.length ≤ (pluginNames s).length := nodup_subset_length hnodup hpathmem
    omega
  | succ f ih =>
    intro name path order pre
    obtain ⟨hname, hpathmem, hnodup, hchain, hfuel, hoi, hdisj⟩ := pre
    by_cases hp : name ∈ path
    · constructor
      · intro order' hok
        simp [visitF, hp] at hok
      · intro e herr
        simp [visitF, hp] at herr
        cases herr
        exact Or.inl ⟨path, name, rfl, hp, hpathmem, hchain⟩
    · by_cases ho : name ∈ order
      · constructor
        · intro order' hok
          simp [visitF, hp, ho] at hok
          cases hok
          exact ⟨extends_refl _, hoi, ho, fun x hx hnx => absurd hx hnx⟩
        · intro e herr
          simp [visitF, hp, ho] at herr
      · have hlast : (path ++ [name]).getLast? = some name := List.getLast?_concat path
        have hpm : ∀ x ∈ path ++ [name], x ∈ pluginNames s := by
          intro x hx
          rcases List.mem_append.mp hx with h1 | h2
          · exact hpathmem x h1
          · rw [List.mem_singleton.mp h2]
            exact hname
        have hnd : (path ++ [name]).Nodup := by
          rw [List.nodup_append]
          exact ⟨hnodup, List.nodup_singleton name,
            fun x hx hx' => hp (List.mem_singleton.mp hx' ▸ hx)⟩
        have hdisj' : ∀ x ∈ path ++ [name], x ∉ order := by
          intro x hx
          rcases List.mem_append.mp hx with h1 | h2
          · exact hdisj x h1
          · rw [List.mem_singleton.mp h2]
            exact ho
        have hfe : (pluginNames s).length + 1 ≤ f + (path ++ [name]).length := by
          rw [List.length_append, List.length_singleton]
          omega
        have hdf := depFold_spec s f ih (depsOf s name) name (path ++ [name]) order
          hname hpm hnd hchain hlast (fun d hd => hd) hfe hoi hdisj'
        cases hdfr : depFold s (visitF s f) (depsOf s name) name (path ++ [name]) order with
        | error e =>
          have hspec := hdf.2 e hdfr
          constructor
          · intro order' hok
            simp [visitF, hp, ho, hdfr] at hok
          · intro e' herr
            simp [visitF, hp, ho, hdfr] at herr
            cases herr
            exact hspec
        | ok order₁ =>
          obtain ⟨hex1, hoi1, hdeps1, hnew1⟩ := hdf.1 order₁ hdfr
          constructor
          · intro order' hok
            simp [visitF, hp, ho, hdfr] at hok
            cases hok
            have hnameNot1 : name ∉ order₁ := by
              intro hmem
              by_cases hno : name ∈ order
              · exact ho hno
              · exact hnew1 name hmem hno (List.mem_append_right path (List.mem_singleton.mpr rfl))
            obtain ⟨hn1, hm1, hdc1⟩ := hoi1
            refine ⟨extends_trans hex1 (extends_concat order₁ name), ⟨?_, ?_, depsClosed_append hdc1 hdeps1⟩, ?_, ?_⟩
            · rw [List.nodup_append]
              exact ⟨hn1, List.nodup_singleton name,
                fun x hx hx' => hnameNot1 (List.mem_singleton.mp hx' ▸ hx)⟩
            · intro x hx
              rcases List.mem_append.mp hx with h1 | h2
              · exact hm1 x h1
              · rw [List.mem_singleton.mp h2]
                exact hname
            · exact List.mem_append_right order₁ (List.mem_singleton.mpr rfl)
            · intro x hx hxo
              rcases List.mem_append.mp hx with h1 | h2
              · exact fun hxp => hnew1 x h1 hxo (List.mem_append_left [name] hxp)
              · rw [List.mem_singleton.mp h2]
                exact hp
          · intro e herr
            simp [visitF, hp, ho, hdfr] at herr

theorem visitAll_spec (s : ManagerState) :
    ∀ (ns : List Name) (order : List Name),
      (∀ n ∈ ns, n ∈ pluginNames s) → OrderInv s order →
      (∀ order', visitAll (visitF s (s.plugins.length + 1)) ns order = .ok order' →
        Extends order order' ∧ OrderInv s order' ∧ ∀ n ∈ ns, n ∈ order') ∧
      (∀ e, visitAll (visitF s (s.plugins.length + 1)) ns order = .error e → ErrSpec s e) := by
  intro ns
  induction ns with
  | nil =>
    intro order _ hoi
    constructor
    · intro order' hok
      simp only [visitAll] at hok
      cases hok
      exact ⟨extends_refl _, hoi, by simp⟩
    · intro e herr
      exact Except.noConfusion herr
  | cons n rest ih =>
    intro order hns hoi
    have hnN : n ∈ pluginNames s := hns n (by simp)
    have hpre : VisitPre s (s.plugins.length + 1) n [] order := by
      refine ⟨hnN, by simp, List.nodup_nil, ?_, ?_, hoi, by simp⟩
      · simp [List.chain'_singleton]
      · simp [pluginNames]
    have hv := visitF_spec s (s.plugins.length + 1) n [] order hpre
    cases hvr : visitF s (s.plugins.length + 1) n [] order with
    | error e =>
      have hspec := hv.2 e hvr
      constructor
      · intro order' hok
        simp [visitAll, hvr] at hok
      · intro e' herr
        simp [visitAll, hvr] at herr
        cases herr
        exact hspec
    | ok order₁ =>
      obtain ⟨hex1, hoi1, hn1, _⟩ := hv.1 order₁ hvr
      have ihall := ih order₁ (fun m hm => hns m (List.mem_cons_of_mem n hm)) hoi1
      constructor
      · intro order' hok
        simp [visitAll, hvr] at hok
        obtain ⟨hex2, hoi2, hrest⟩ := ihall.1 order' hok
        refine ⟨extends_trans hex1 hex2, hoi2, ?_⟩
        intro m hm
        rcases List.mem_cons.mp hm with rfl | hmem
        · exact extends_mem hex2 hn1
        · exact hrest m hmem
      · intro e herr
        simp [visitAll, hvr] at herr
        exact ihall.2 e herr

theorem resolve_ok_spec {s : ManagerState} {order : List Name}
    (h : resolveInitializationOrder s = .ok order) :
    OrderInv s order ∧ ∀ n, n ∈ order ↔ n ∈ pluginNames s := by
  have hs := visitAll_spec s (pluginNames s) [] (fun _ hn => hn)
    ⟨List.nodup_nil, by simp, depsClosed_nil s⟩
  obtain ⟨_, hoi, hcomp⟩ := hs.1 order h
  exact ⟨hoi, fun n => ⟨fun hn => hoi.2.1 n hn, fun hn => hcomp n hn⟩⟩

theorem resolve_error_spec {s : ManagerState} {e : PMError}
    (h : resolveInitializationOrder s = .error e) : ErrSpec s e := by
  have hs := visitAll_spec s (pluginNames s) [] (fun _ hn => hn)
    ⟨List.nodup_nil, by simp, depsClosed_nil s⟩
  exact hs.2 e h

theorem depsClosed_indexOf {s : ManagerState} {order : List Name}
    (hn : order.Nodup) (hdc : DepsClosed s order) {a d : Name}
    (ha : a ∈ order) (hd : d ∈ depsOf s a) :
    d ∈ order ∧ order.indexOf d < order.indexOf a := by
  obtain ⟨l₁, l₂, rfl⟩ := List.append_of_mem ha
  have hdl : d ∈ l₁ := hdc l₁ a l₂ rfl d hd
  have hanotl : a ∉ l₁ := by
    rw [List.nodup_append] at hn
    exact fun hal => hn.2.2 hal (List.mem_cons_self a l₂)
  refine ⟨List.mem_append_left _ hdl, ?_⟩
  rw [List.indexOf_append_of_mem hdl, List.indexOf_append_of_not_mem hanotl,
    List.indexOf_cons_self]
  have := List.indexOf_lt_length.mpr hdl
  omega

theorem resolve_ok_topo {s : ManagerState} {order : List Name}
    (h : resolveInitializationOrder s = .ok order) :
    ∀ a b, Relation.TransGen (Edge s) a b → order.indexOf b < order.indexOf a := by
  obtain ⟨⟨hnodup, _, hdc⟩, hiff⟩ := resolve_ok_spec h
  have hone : ∀ a b, Edge s a b → order.indexOf b < order.indexOf a := by
    intro a b hab
    obtain ⟨haN, _, hdep⟩ := hab
    exact (depsClosed_indexOf hnodup hdc ((hiff a).mpr haN) hdep).2
  intro a b htg
  induction htg with
  | single hab => exact hone _ _ hab
  | tail _ hbc ih => exact lt_trans (hone _ _ hbc) ih

theorem isCycle_transGen {s : ManagerState} {c : List Name} (h : IsCycle s c) :
    ∃ a, Relation.TransGen (Edge s) a a := by
  obtain ⟨a, l, rfl, hch, hwrap, hmem⟩ := h
  refine ⟨a, ?_⟩
  rcases l.eq_nil_or_concat with rfl | ⟨q, z, rfl⟩
  · have hd : DStep s a a := by simpa [List.getLastD] using hwrap
    exact Relation.TransGen.single ⟨hmem a (by simp), hmem a (by simp), hd⟩
  · simp only [List.concat_eq_append] at *
    have hz : (a :: (q ++ [z])).getLastD a = z := by
      rw [show a :: (q ++ [z]) = (a :: q) ++ [z] from rfl]
      exact List.getLastD_concat _ _ _
    rw [hz] at hwrap
    have hchE : List.Chain' (Edge s) (a :: (q ++ [z])) := chain'_edge hch hmem
    have htg : Relation.TransGen (Edge s) a z := chain'_transGen q a z hchE
    exact htg.tail ⟨hmem z (by simp), hmem a (by simp), hwrap⟩

theorem errSpec_circular_cycle {s : ManagerState} {p : List Name} {m : Name}
    (hmem : m ∈ p) (hreg : ∀ x ∈ p, x ∈ pluginNames s)
    (hch : List.Chain' (DStep s) (p ++ [m])) :
    ∃ c, IsCycle s c ∧ ∀ x ∈ c, x ∈ p ++ [m] := by
  obtain ⟨p₁, p₂, rfl⟩ := List.append_of_mem hmem
  have hch2 : List.Chain' (DStep s) ((m :: p₂) ++ [m]) := by
    rw [show (p₁ ++ m :: p₂) ++ [m] = p₁ ++ ((m :: p₂) ++ [m]) by simp] at hch
    exact (List.chain'_append.mp hch).2.1
  have hchc : List.Chain' (DStep s) (m :: p₂) := (List.chain'_append.mp hch2).1
  have hcl := (List.chain'_append.mp hch2).2.2
  have hwrap : DStep s ((m :: p₂).getLastD m) m := by
    rcases p₂.eq_nil_or_concat with rfl | ⟨q, z, rfl⟩
    · have hd : DStep s m m := by
        apply hcl m ?_ m ?_
        · simp
        · simp
      simpa [List.getLastD] using hd
    · simp only [List.concat_eq_append] at *
      have hgl : (m :: (q ++ [z])).getLast? = some z := by
        rw [show m :: (q ++ [z]) = (m :: q) ++ [z] from rfl, List.getLast?_concat]
      have hd : DStep s z m := by
        apply hcl z ?_ m ?_
        · rw [hgl]
          rfl
        · simp
      have hgd : (m :: (q ++ [z])).getLastD m = z := by
        rw [show m :: (q ++ [z]) = (m :: q) ++ [z] from rfl]
        exact List.getLastD_concat _ _ _
      rw [hgd]
      exact hd
  refine ⟨m :: p₂, ⟨m, p₂, rfl, hchc, hwrap, ?_⟩, ?_⟩
  · intro x hx
    rcases List.mem_cons.mp hx with rfl | hx2
    · exact hreg x hmem
    · exact hreg x (by simp [hx2])
  · intro x hx
    rcases List.mem_cons.mp hx with rfl | hx2
    · exact List.mem_append_left _ hmem
    · exact List.mem_append_left _ (by simp [hx2])

theorem transGen_irrefl_of_no_edge {r : Name → Name → Prop} (h : ∀ a b, ¬ r a b) :
    ∀ n, ¬ Relation.TransGen r n n := by
  intro n htg
  cases htg with
  | single h1 => exact h _ _ h1
  | tail _ h1 => exact h _ _ h1

theorem no_edge_of_single_no_dep : ∀ a b : Name, ¬ Edge exOne a b := by
  intro a b h
  obtain ⟨_, _, hd⟩ := h
  have hdeps : depsOf exOne a = [] := rfl
  rw [hdeps] at hd
  exact List.not_mem_nil b hd

theorem no_edge_exMiss : ∀ a b : Name, ¬ Edge exMiss a b := by
  intro a b h
  obtain ⟨ha, hb, hd⟩ := h
  have hpn : pluginNames exMiss = ["a"] := rfl
  rw [hpn] at ha hb
  have ha' : a = "a" := List.mem_singleton.mp ha
  have hb' : b = "a" := List.mem_singleton.mp hb
  subst ha'
  subst hb'
  have hdp : depsOf exMiss "a" = ["ghost"] := rfl
  rw [hdp] at hd
  exact absurd (List.mem_singleton.mp hd) (by decide)

/-- Claim C1: for every registry whose dependency relation restricted to
registered ids is acyclic and references only registered ids,
`resolveInitializationOrder` returns a sequence containing each
registered id exactly once, in which every dependency id appears before
every id that directly or transitively depends on it. -/
theorem C1_resolve_topological_order (s : ManagerState)
    (hdeps : ∀ a ∈ pluginNames s, ∀ d ∈ depsOf s a, d ∈ pluginNames s)
    (hacyc : ∀ n, ¬ Relation.TransGen (Edge s) n n) :
    ∃ order, resolveInitializationOrder s = .ok order ∧ order.Nodup ∧
      (∀ n, n ∈ order ↔ n ∈ pluginNames s) ∧
      ∀ a b, Relation.TransGen (Edge s) a b → order.indexOf b < order.indexOf a := by
  cases hres : resolveInitializationOrder s with
  | ok order =>
    obtain ⟨⟨hnodup, _, _⟩, hiff⟩ := resolve_ok_spec hres
    exact ⟨order, rfl, hnodup, hiff, resolve_ok_topo hres⟩
  | error e =>
    exfalso
    rcases resolve_error_spec hres with ⟨p, m, _, hmem, hreg, hch⟩ | ⟨d, m, _, hmN, hdep, hdN⟩
    · obtain ⟨c, hcyc, _⟩ := errSpec_circular_cycle hmem hreg hch
      obtain ⟨a, htg⟩ := isCycle_transGen hcyc
      exact hacyc a htg
    · exact hdN (hdeps m hmN d hdep)

/-- Witness for C1 at a concrete one-plugin registry. -/
theorem C1_resolve_topological_order_witness :
    (∀ a ∈ pluginNames exOne, ∀ d ∈ depsOf exOne a, d ∈ pluginNames exOne) ∧
    (∀ n, ¬ Relation.TransGen (Edge exOne) n n) ∧
    ∃ order, resolveInitializationOrder exOne = .ok order ∧ order.Nodup ∧
      (∀ n, n ∈ order ↔ n ∈ pluginNames exOne) ∧
      ∀ a b, Relation.TransGen (Edge exOne) a b →
        order.indexOf b < order.indexOf a := by
  have hdeps : ∀ a ∈ pluginNames exOne, ∀ d ∈ depsOf exOne a, d ∈ pluginNames exOne := by
    intro a ha d hd
    have hdeps : depsOf exOne a = [] := rfl
    rw [hdeps] at hd
    exact absurd hd (List.not_mem_nil d)
  have hacyc := transGen_irrefl_of_no_edge no_edge_of_single_no_dep
  exact ⟨hdeps, hacyc, C1_resolve_topological_order exOne hdeps hacyc⟩

/-- Claim C5 as written is false: in `exS5` the graph has the two-cycle
`b ↔ c`, yet resolution reports the missing dependency of `a` (walked
first), not the circular-dependency error. -/
theorem C5_counterexample :
    isCircularErr (resolveInitializationOrder exS5) = false ∧
    resolveInitializationOrder exS5 = .error (.missingDependency "ghost" "a") ∧
    IsCycle exS5 ["b", "c"] ∧ 2 ≤ (["b", "c"] : List Name).length := by
  refine ⟨rfl, rfl, ⟨"b", ["c"], rfl, ?_, ?_, ?_⟩, by decide⟩
  · refine List.chain'_cons.mpr ⟨?_, List.chain'_singleton _⟩
    show ("c" : Name) ∈ depsOf exS5 "b"
    decide
  · show ("b" : Name) ∈ depsOf exS5 "c"
    decide
  · decide

/-- Claim C5 (amended): for every registry whose dependency references
are all registered and whose dependency relation contains a cycle of
length at least 2, resolution fails with the circular-dependency error,
and the reported path contains every id of a dependency cycle (the one
the walk detected). -/
theorem C5_cycle_detection (s : ManagerState)
    (hdeps : ∀ a ∈ pluginNames s, ∀ d ∈ depsOf s a, d ∈ pluginNames s)
    (hcyc : ∃ c, IsCycle s c ∧ 2 ≤ c.length) :
    ∃ p, resolveInitializationOrder s = .error (.circularDependency p) ∧
      ∃ c, IsCycle s c ∧ ∀ x ∈ c, x ∈ p := by
  cases hres : resolveInitializationOrder s with
  | ok order =>
    exfalso
    obtain ⟨c, hc, _⟩ := hcyc
    obtain ⟨a, htg⟩ := isCycle_transGen hc
    exact lt_irrefl _ (resolve_ok_topo hres a a htg)
  | error e =>
    rcases resolve_error_spec hres with ⟨p, m, rfl, hmem, hreg, hch⟩ | ⟨d, m, rfl, hmN, hdep, hdN⟩
    · obtain ⟨c, hcy, hsub⟩ := errSpec_circular_cycle hmem hreg hch
      exact ⟨p ++ [m], rfl, c, hcy, hsub⟩
    · exact absurd (hdeps m hmN d hdep) hdN

/-- Witness for the amended C5 on the concrete two-cycle registry. -/
theorem C5_cycle_detection_witness :
    (∀ a ∈ pluginNames exCyc, ∀ d ∈ depsOf exCyc a, d ∈ pluginNames exCyc) ∧
    (∃ c, IsCycle exCyc c ∧ 2 ≤ c.length) ∧
    ∃ p, resolveInitializationOrder exCyc = .error (.circularDependency p) ∧
      ∃ c, IsCycle exCyc c ∧ ∀ x ∈ c, x ∈ p := by
  have hdeps : ∀ a ∈ pluginNames exCyc, ∀ d ∈ depsOf exCyc a, d ∈ pluginNames exCyc := by
    decide
  have hcyc : ∃ c, IsCycle exCyc c ∧ 2 ≤ c.length := by
    refine ⟨["b", "c"], ⟨"b", ["c"], rfl, ?_, ?_, ?_⟩, by decide⟩
    · refine List.chain'_cons.mpr ⟨?_, List.chain'_singleton _⟩
      show ("c" : Name) ∈ depsOf exCyc "b"
      decide
    · show ("b" : Name) ∈ depsOf exCyc "c"
      decide
    · decide
  exact ⟨hdeps, hcyc, C5_cycle_detection exCyc hdeps hcyc⟩

/-- Claim C9 as written is false: in `exS9` plugin `b` declares the
unregistered dependency `ghost`, yet resolution reports the circular
dependency `a → b → a` (found first), not the missing-dependency
error. -/
theorem C9_counterexample :
    isMissingErr (resolveInitializationOrder exS9) = false ∧
    resolveInitializationOrder exS9 = .error (.circularDependency ["a", "b", "a"]) ∧
    ("b" : Name) ∈ pluginNames exS9 ∧ ("ghost" : Name) ∈ depsOf exS9 "b" ∧
    ("ghost" : Name) ∉ pluginNames exS9 := by
  exact ⟨rfl, rfl, by decide, by decide, by decide⟩

/-- Claim C9 (amended): for every registry whose dependency relation
restricted to registered ids is acyclic and in which some registered
plugin declares an unregistered dependency id, resolution fails with
the missing-dependency error naming an unregistered id and a registered
plugin that requires it. -/
theorem C9_missing_dependency (s : ManagerState)
    (hacyc : ∀ n, ¬ Relation.TransGen (Edge s) n n)
    (hmiss : ∃ m ∈ pluginNames s, ∃ d ∈ depsOf s m, d ∉ pluginNames s) :
    ∃ d m, resolveInitializationOrder s = .error (.missingDependency d m) ∧
      m ∈ pluginNames s ∧ d ∈ depsOf s m ∧ d ∉ pluginNames s := by
  cases hres : resolveInitializationOrder s with
  | ok order =>
    exfalso
    obtain ⟨⟨hnodup, _, hdc⟩, hiff⟩ := resolve_ok_spec hres
    obtain ⟨m, hmN, d, hdep, hdN⟩ := hmiss
    have hm : m ∈ order := (hiff m).mpr hmN
    exact hdN ((hiff d).mp (depsClosed_indexOf hnodup hdc hm hdep).1)
  | error e =>
    rcases resolve_error_spec hres with ⟨p, m, rfl, hpm, hreg, hch⟩ | ⟨d, m, rfl, hmN, hdep, hdN⟩
    · exfalso
      obtain ⟨c, hcy, _⟩ := errSpec_circular_cycle hpm hreg hch
      obtain ⟨a, htg⟩ := isCycle_transGen hcy
      exact hacyc a htg
    · exact ⟨d, m, rfl, hmN, hdep, hdN⟩

theorem bumpErr_zero (e : PluginEntry) : bumpErr e 0 = e := rfl

theorem bumpErr_add (e : PluginEntry) (j k : Nat) :
    bumpErr (bumpErr e j) k = bumpErr e (j + k) := by
  simp [bumpErr, Nat.add_assoc]

theorem map_range_shift {β : Type} (f : Nat → β) (m a : Nat) :
    (List.range (m + 1)).map (fun i => f (a + 1 + i)) =
      f (a + 1) :: (List.range m).map (fun i => f (a + 1 + 1 + i)) := by
  rw [List.range_succ_eq_map]
  simp only [List.map_cons, Nat.add_zero, List.map_map]
  refine congrArg _ ?_
  refine List.map_congr_left ?_
  intro i _
  simp only [Function.comp_apply]
  congr 1
  omega

theorem shiftList_eq {β : Type} (g : Nat → β) :
    ∀ (m a : Nat), shiftList g a m = (List.range m).map (fun i => g (a + 1 + i)) := by
  intro m
  induction m with
  | zero => intro a; rfl
  | succ m' ih =>
    intro a
    rw [map_range_shift g m' a, shiftList, ih (a + 1)]

theorem bumpErr_comp (e : PluginEntry) (k : Nat) :
    bumpErr (bumpErr e 1) k = bumpErr e (k + 1) := by
  rw [bumpErr_add, Nat.add_comm 1 k]

theorem initLoop_all_fail (name : Name) (behav : Nat → Bool) (n : Nat) :
    ∀ (r a : Nat) (e : PluginEntry), 1 ≤ r → n = a + r →
      (∀ j, j < n → behav j = false) →
      initLoop name behav n a e r =
        ⟨bumpErr e r, r, shiftList (fun x => 1000 * x) a (r - 1),
         shiftList (fun x => LogEvent.initAttemptFailed name x) a r,
         .error (.initFailed name n)⟩ := by
  intro r
  induction r with
  | zero =>
    intro a e h1 _ _
    omega
  | succ r' ih =>
    intro a e _ hn hfail
    have hba : behav a = false := hfail a (by omega)
    rcases Nat.eq_zero_or_pos r' with rfl | hr'
    · have hcond : a + 1 = n := by omega
      simp [initLoop, hba, hcond, bumpErr, shiftList]
    · obtain ⟨r'', rfl⟩ : ∃ r'', r' = r'' + 1 := ⟨r' - 1, by omega⟩
      have hcond : ¬ (a + 1 = n) := by omega
      have hun : initLoop name behav n a e (r'' + 1 + 1) =
          ⟨(initLoop name behav n (a + 1) (bumpErr e 1) (r'' + 1)).entry,
           (initLoop name behav n (a + 1) (bumpErr e 1) (r'' + 1)).calls + 1,
           1000 * (a + 1) :: (initLoop name behav n (a + 1) (bumpErr e 1) (r'' + 1)).sleeps,
           LogEvent.initAttemptFailed name (a + 1) ::
             (initLoop name behav n (a + 1) (bumpErr e 1) (r'' + 1)).logs,
           (initLoop name behav n (a + 1) (bumpErr e 1) (r'' + 1)).result⟩ := by
        simp [initLoop, hba, hcond, bumpErr]
      rw [hun, ih (a + 1) (bumpErr e 1) (by omega) (by omega) hfail]
      simp [bumpErr_comp, shiftList]

theorem initLoop_first_success (name : Name) (behav : Nat → Bool) (n : Nat) :
    ∀ (k r a : Nat) (e : PluginEntry), k < r → a + k < n →
      behav (a + k) = true → (∀ j, j < k → behav (a + j) = false) →
      initLoop name behav n a e r =
        ⟨{ bumpErr e k with isInitialized := true }, k + 1,
         shiftList (fun x => 1000 * x) a k,
         shiftList (fun x => LogEvent.initAttemptFailed name x) a k ++
           [LogEvent.initOk name],
         .ok ()⟩ := by
  intro k
  induction k with
  | zero =>
    intro r a e hkr _ hsucc _
    obtain ⟨r', rfl⟩ : ∃ r', r = r' + 1 := ⟨r - 1, by omega⟩
    rw [Nat.add_zero] at hsucc
    simp [initLoop, hsucc, bumpErr_zero, shiftList]
  | succ k' ih =>
    intro r a e hkr hkn hsucc hfail
    obtain ⟨r', rfl⟩ : ∃ r', r = r' + 1 := ⟨r - 1, by omega⟩
    have hba : behav a = false := by
      have := hfail 0 (by omega)
      rwa [Nat.add_zero] at this
    have hcond : ¬ (a + 1 = n) := by omega
    have hsucc' : behav (a + 1 + k') = true := by
      rw [show a + 1 + k' = a + (k' + 1) from by omega]
      exact hsucc
    have hfail' : ∀ j, j < k' → behav (a + 1 + j) = false := by
      intro j hj
      rw [show a + 1 + j = a + (j + 1) from by omega]
      exact hfail (j + 1) (by omega)
    have hun : initLoop name behav n a e (r' + 1) =
        ⟨(initLoop name behav n (a + 1) (bumpErr e 1) r').entry,
         (initLoop name behav n (a + 1) (bumpErr e 1) r').calls + 1,
         1000 * (a + 1) :: (initLoop name behav n (a + 1) (bumpErr e 1) r').sleeps,
         LogEvent.initAttemptFailed name (a + 1) ::
           (initLoop name behav n (a + 1) (bumpErr e 1) r').logs,
         (initLoop name behav n (a + 1) (bumpErr e 1) r').result⟩ := by
      simp [initLoop, hba, hcond, bumpErr]
    rw [hun, ih r' (a + 1) (bumpErr e 1) (by omega) (by omega) hsucc' hfail']
    simp [bumpErr_comp, shiftList]

theorem mapSet_get_same {β : Type} {m : List (Name × β)} {k : Name} {v : β}
    (h : mapGet m k = some v) : mapSet m k v = m := by
  induction m with
  | nil => simp [mapGet] at h
  | cons kv rest ih =>
    by_cases hk : kv.1 = k
    · obtain ⟨k', v'⟩ := kv
      simp only [mapGet, if_pos hk, Option.some_inj] at h
      simp only at hk
      subst hk
      subst h
      simp [mapSet]
    · simp only [mapGet, if_neg hk] at h
      simp [mapSet, hk, ih h]

theorem initializePlugin_success {s : ManagerState} {name : Name} {behav : Nat → Bool}
    {e : PluginEntry} {k : Nat} (he : mapGet s.plugins name = some e)
    (hk : k < e.config.errorHandling.retryAttempts)
    (hs : behav k = true) (hf : ∀ j, j < k → behav j = false) :
    initializePlugin s name behav =
      ⟨{ s with plugins := mapSet s.plugins name { bumpErr e k with isInitialized := true } },
       k + 1, shiftList (fun x => 1000 * x) 0 k,
       shiftList (fun x => LogEvent.initAttemptFailed name x) 0 k ++ [LogEvent.initOk name],
       .ok ()⟩ := by
  have hl := initLoop_first_success name behav e.config.errorHandling.retryAttempts k
    e.config.errorHandling.retryAttempts 0 e hk (by omega) (by simpa using hs)
    (fun j hj => by simpa using hf j hj)
  simp [initializePlugin, he, hl]

theorem initializePlugin_fail {s : ManagerState} {name : Name} {behav : Nat → Bool}
    {e : PluginEntry} (he : mapGet s.plugins name = some e)
    (hn : 1 ≤ e.config.errorHandling.retryAttempts)
    (hf : ∀ j, j < e.config.errorHandling.retryAttempts → behav j = false) :
    initializePlugin s name behav =
      ⟨{ s with plugins :=
          mapSet s.plugins name (bumpErr e e.config.errorHandling.retryAttempts) },
       e.config.errorHandling.retryAttempts,
       shiftList (fun x => 1000 * x) 0 (e.config.errorHandling.retryAttempts - 1),
       shiftList (fun x => LogEvent.initAttemptFailed name x) 0
         e.config.errorHandling.retryAttempts,
       .error (.initFailed name e.config.errorHandling.retryAttempts)⟩ := by
  have hl := initLoop_all_fail name behav e.config.errorHandling.retryAttempts
    e.config.errorHandling.retryAttempts 0 e hn (by omega) hf
  simp [initializePlugin, he, hl]

theorem initializePlugin_zero {s : ManagerState} {name : Name} {behav : Nat → Bool}
    {e : PluginEntry} (he : mapGet s.plugins name = some e)
    (hz : e.config.errorHandling.retryAttempts = 0) :
    initializePlugin s name behav = ⟨s, 0, [], [], .ok ()⟩ := by
  simp [initializePlugin, he, hz, initLoop, mapSet_get_same he]

theorem initializePlugin_absent {s : ManagerState} {name : Name} {behav : Nat → Bool}
    (he : mapGet s.plugins name = none) :
    initializePlugin s name behav = ⟨s, 0, [], [], .error (.pluginNotFound name)⟩ := by
  simp [initializePlugin, he]

theorem shiftList_zero_eq (m : Nat) :
    shiftList (fun x => 1000 * x) 0 m = (List.range m).map (fun i => 1000 * (i + 1)) := by
  rw [shiftList_eq]
  exact List.map_congr_left (fun i _ => by congr 1; omega)

/-- Claim C3 as written is false when the caller configures
`retryAttempts = 0` (registration accepts it and the spread overrides
the default 3): the retry loop never runs, so an always-failing plugin
yields a normal return with zero startup calls instead of the
initialization-failed error. -/
theorem C3_counterexample :
    registerPlugin ⟨[], []⟩ 0 "p" pluginOk cfgZeroRetry = .ok exS3 ∧
    retryOf exS3 "p" = 0 ∧
    (initializePlugin exS3 "p" (fun _ => false)).result = .ok () ∧
    (initializePlugin exS3 "p" (fun _ => false)).calls = 0 ∧
    (mapGet (initializePlugin exS3 "p" (fun _ => false)).state.plugins "p").map
      (fun e => e.isInitialized) = some false :=
  ⟨rfl, rfl, rfl, rfl, rfl⟩

/-- Claim C3 (amended, requiring `retryAttempts ≥ 1`): single-plugin
initialization invokes startup once per attempt until the first
success, at most `n = retryAttempts` times; each failed attempt
increments `metrics.errorCount` and, unless it is the last allowed
attempt, waits `1000 ms × attemptNumber`; a success within `n` attempts
ends with `isInitialized = true` and a normal return, and `n` failures
end with the initialization-failed error carrying the attempt count
`n`. -/
theorem C3_retry_behaviour (s : ManagerState) (name : Name) (behav : Nat → Bool)
    (e : PluginEntry) (he : mapGet s.plugins name = some e)
    (hn : 1 ≤ e.config.errorHandling.retryAttempts) :
    (∀ k, k < e.config.errorHandling.retryAttempts → behav k = true →
      (∀ j, j < k → behav j = false) →
      (initializePlugin s name behav).result = .ok () ∧
      (initializePlugin s name behav).calls = k + 1 ∧
      (initializePlugin s name behav).sleeps =
        (List.range k).map (fun i => 1000 * (i + 1)) ∧
      mapGet (initializePlugin s name behav).state.plugins name =
        some { bumpErr e k with isInitialized := true }) ∧
    ((∀ j, j < e.config.errorHandling.retryAttempts → behav j = false) →
      (initializePlugin s name behav).result =
        .error (.initFailed name e.config.errorHandling.retryAttempts) ∧
      (initializePlugin s name behav).calls = e.config.errorHandling.retryAttempts ∧
      (initializePlugin s name behav).sleeps =
        (List.range (e.config.errorHandling.retryAttempts - 1)).map
          (fun i => 1000 * (i + 1)) ∧
      mapGet (initializePlugin s name behav).state.plugins name =
        some (bumpErr e e.config.errorHandling.retryAttempts)) := by
  constructor
  · intro k hk hs hf
    rw [initializePlugin_success he hk hs hf]
    refine ⟨rfl, rfl, shiftList_zero_eq k, ?_⟩
    exact mapGet_mapSet_self _ _ _
  · intro hf
    rw [initializePlugin_fail he hn hf]
    refine ⟨rfl, rfl, shiftList_zero_eq _, ?_⟩
    exact mapGet_mapSet_self _ _ _

/-- Witness for the amended C3, applied to a concrete plugin that fails
once then starts, and to one that always fails. -/
theorem C3_retry_behaviour_witness :
    (initializePlugin exOne "p" (fun j => j == 1)).result = .ok () ∧
    (initializePlugin exOne "p" (fun j => j == 1)).calls = 2 ∧
    (initializePlugin exOne "p" (fun j => j == 1)).sleeps = [1000] ∧
    (mapGet (initializePlugin exOne "p" (fun j => j == 1)).state.plugins "p").map
      (fun e => e.isInitialized) = some true ∧
    (initializePlugin exOne "p" (fun _ => false)).result = .error (.initFailed "p" 3) ∧
    (initializePlugin exOne "p" (fun _ => false)).calls = 3 ∧
    (initializePlugin exOne "p" (fun _ => false)).sleeps = [1000, 2000] := by
  have he : mapGet exOne.plugins "p" = some (mkEntry pluginOk []) := rfl
  have hn : 1 ≤ (mkEntry pluginOk []).config.errorHandling.retryAttempts := by decide
  obtain ⟨hr1, hc1, hs1, hm1⟩ :=
    (C3_retry_behaviour exOne "p" (fun j => j == 1) (mkEntry pluginOk []) he hn).1 1
      (by decide) (by decide)
      (fun j hj => by
        have hj0 : j = 0 := by omega
        subst hj0
        rfl)
  obtain ⟨hr2, hc2, hs2, _⟩ :=
    (C3_retry_behaviour exOne "p" (fun _ => false) (mkEntry pluginOk []) he hn).2
      (fun j _ => rfl)
  refine ⟨hr1, hc1, ?_, ?_, hr2, hc2, ?_⟩
  · rw [hs1]
    rfl
  · rw [hm1]
    rfl
  · rw [hs2]
    rfl

theorem initializePlugin_frame {s : ManagerState} {name q : Name} {behav : Nat → Bool}
    (h : q ≠ name) :
    mapGet (initializePlugin s name behav).state.plugins q = mapGet s.plugins q := by
  cases he : mapGet s.plugins name with
  | none => simp [initializePlugin, he]
  | some e => simp [initializePlugin, he, mapGet_mapSet_ne _ _ _ _ h]

theorem initSeq_frame (behav : Name → Nat → Bool) :
    ∀ (ns : List Name) (s : ManagerState) (q : Name), q ∉ ns →
      mapGet (initSeq behav s ns).state.plugins q = mapGet s.plugins q := by
  intro ns
  induction ns with
  | nil => intro s q _; rfl
  | cons n rest ih =>
    intro s q hq
    have hqn : q ≠ n := fun he => hq (he ▸ List.mem_cons_self n rest)
    have hqr : q ∉ rest := fun hm => hq (List.mem_cons_of_mem n hm)
    cases hr : (initializePlugin s n (behav n)).result with
    | error e =>
      simp [initSeq, hr]
      exact initializePlugin_frame hqn
    | ok u =>
      simp [initSeq, hr]
      rw [ih _ q hqr]
      exact initializePlugin_frame hqn

theorem initSeq_abort (behav : Name → Nat → Bool) :
    ∀ (l₁ : List Name) (f : Name) (l₂ : List Name) (s : ManagerState),
      (l₁ ++ f :: l₂).Nodup →
      (∀ p ∈ l₁, ∃ e, mapGet s.plugins p = some e ∧
        ∃ k, k < e.config.errorHandling.retryAttempts ∧ behav p k = true ∧
          ∀ j, j < k → behav p j = false) →
      (∃ ef, mapGet s.plugins f = some ef ∧ 1 ≤ ef.config.errorHandling.retryAttempts ∧
        ∀ j, j < ef.config.errorHandling.retryAttempts → behav f j = false) →
      (initSeq behav s (l₁ ++ f :: l₂)).result = .error (.initFailed f (retryOf s f)) ∧
      (initSeq behav s (l₁ ++ f :: l₂)).attempted.map Prod.fst = l₁ ++ [f] ∧
      (∀ p ∈ l₁, ∃ e', mapGet (initSeq behav s (l₁ ++ f :: l₂)).state.plugins p = some e' ∧
        e'.isInitialized = true) := by
  intro l₁
  induction l₁ with
  | nil =>
    intro f l₂ s _ _ hft
    obtain ⟨ef, hef, hn1, hfl⟩ := hft
    have hrof : retryOf s f = ef.config.errorHandling.retryAttempts := by
      simp [retryOf, hef]
    rw [hrof]
    simp [initSeq, initializePlugin_fail hef hn1 hfl]
  | cons p l₁' ih =>
    intro f l₂ s hnd hsucc hft
    have hpmem : p ∉ l₁' ++ f :: l₂ := (List.nodup_cons.mp hnd).1
    have hnd' : (l₁' ++ f :: l₂).Nodup := (List.nodup_cons.mp hnd).2
    obtain ⟨e, hep, k, hk, hbk, hbf⟩ := hsucc p (List.mem_cons_self p _)
    have hsp := initializePlugin_success hep hk hbk hbf
    have hr : (initializePlugin s p (behav p)).result = .ok () := by rw [hsp]
    have hframe : ∀ q, q ≠ p →
        mapGet (initializePlugin s p (behav p)).state.plugins q = mapGet s.plugins q :=
      fun q hq => initializePlugin_frame hq
    have hpset : mapGet (initializePlugin s p (behav p)).state.plugins p =
        some { bumpErr e k with isInitialized := true } := by
      rw [hsp]
      exact mapGet_mapSet_self _ _ _
    have hfp : f ≠ p := by
      intro hfe
      exact hpmem (hfe ▸ List.mem_append_right l₁' (List.mem_cons_self f l₂))
    have ihall := ih f l₂ (initializePlugin s p (behav p)).state hnd' ?hsucc' ?hft'
    case hsucc' =>
      intro q hq
      have hqp : q ≠ p := by
        intro hqe
        exact hpmem (hqe ▸ List.mem_append_left _ hq)
      rw [hframe q hqp]
      exact hsucc q (List.mem_cons_of_mem p hq)
    case hft' =>
      obtain ⟨ef, hef, hn1, hfl⟩ := hft
      exact ⟨ef, by rw [hframe f hfp]; exact hef, hn1, hfl⟩
    have hrof : retryOf (initializePlugin s p (behav p)).state f = retryOf s f := by
      simp [retryOf, hframe f hfp]
    rw [hrof] at ihall
    refine ⟨?_, ?_, ?_⟩
    · simp only [List.cons_append, initSeq, hr]
      exact ihall.1
    · simp only [List.cons_append, initSeq, hr]
      simp only [List.map_cons]
      exact congrArg (fun t => p :: t) ihall.2.1
    · intro q hq
      rcases List.mem_cons.mp hq with rfl | hq'
      · have hqnot : q ∉ l₁' ++ f :: l₂ := hpmem
        refine ⟨{ bumpErr e k with isInitialized := true }, ?_, rfl⟩
        simp only [List.cons_append, initSeq, hr]
        exact (initSeq_frame behav _ _ _ hqnot).trans hpset
      · obtain ⟨e', he', hinit⟩ := ihall.2.2 q hq'
        refine ⟨e', ?_, hinit⟩
        simp only [List.cons_append, initSeq, hr]
        exact he'

/-- Claim C4: whole-registry initialization walks the resolved order
strictly sequentially; the first plugin exhausting its retries fails
the whole call with its initialization-failed error, startup is never
invoked for any id later in the order, and every previously initialized
plugin stays registered with `isInitialized = true`. -/
theorem C4_sequential_abort (s : ManagerState) (behav : Name → Nat → Bool)
    (l₁ : List Name) (f : Name) (l₂ : List Name)
    (hres : resolveInitializationOrder s = .ok (l₁ ++ f :: l₂))
    (hok : ∀ p ∈ l₁, ∃ k, k < retryOf s p ∧ behav p k = true)
    (hfail : ∀ j, j < retryOf s f → behav f j = false)
    (hnf : 1 ≤ retryOf s f) :
    (initializePlugins s behav).result = .error (.initFailed f (retryOf s f)) ∧
    (initializePlugins s behav).attempted.map Prod.fst = l₁ ++ [f] ∧
    (∀ q ∈ l₂, q ∉ (initializePlugins s behav).attempted.map Prod.fst) ∧
    (∀ p ∈ l₁, ∃ e', mapGet (initializePlugins s behav).state.plugins p = some e' ∧
      e'.isInitialized = true) := by
  obtain ⟨⟨hnodup, _, _⟩, hiff⟩ := resolve_ok_spec hres
  have hsucc : ∀ p ∈ l₁, ∃ e, mapGet s.plugins p = some e ∧
      ∃ k, k < e.config.errorHandling.retryAttempts ∧ behav p k = true ∧
        ∀ j, j < k → behav p j = false := by
    intro p hp
    obtain ⟨k, hk, hbk⟩ := hok p hp
    have hpe : (mapGet s.plugins p).isSome = true := by
      rw [mapGet_isSome_iff]
      exact (hiff p).mp (List.mem_append_left _ hp)
    obtain ⟨e, hep⟩ := Option.isSome_iff_exists.mp hpe
    have hre : retryOf s p = e.config.errorHandling.retryAttempts := by
      simp [retryOf, hep]
    have hex : ∃ j, behav p j = true := ⟨k, hbk⟩
    refine ⟨e, hep, Nat.find hex, ?_, Nat.find_spec hex, ?_⟩
    · have := Nat.find_min' hex hbk
      omega
    · intro j hj
      cases hb : behav p j with
      | false => rfl
      | true => exact absurd hb (Nat.find_min hex hj)
  have hft : ∃ ef, mapGet s.plugins f = some ef ∧
      1 ≤ ef.config.errorHandling.retryAttempts ∧
      ∀ j, j < ef.config.errorHandling.retryAttempts → behav f j = false := by
    cases hef : mapGet s.plugins f with
    | none => rw [retryOf, hef] at hnf; simp at hnf
    | some ef =>
      have hre : retryOf s f = ef.config.errorHandling.retryAttempts := by
        simp [retryOf, hef]
      exact ⟨ef, rfl, hre ▸ hnf, fun j hj => hfail j (by omega)⟩
  have habort := initSeq_abort behav l₁ f l₂ s hnodup hsucc hft
  have hip : initializePlugins s behav = initSeq behav s (l₁ ++ f :: l₂) := by
    simp [initializePlugins, hres]
  rw [hip]
  refine ⟨habort.1, habort.2.1, ?_, habort.2.2⟩
  intro q hq
  rw [habort.2.1]
  have hq2 : q ∈ f :: l₂ := List.mem_cons_of_mem f hq
  rw [List.nodup_append] at hnodup
  intro hmem
  rcases List.mem_append.mp hmem with h1 | h2
  · exact hnodup.2.2 h1 hq2
  · rw [List.mem_singleton.mp h2] at hq
    exact (List.nodup_cons.mp hnodup.2.1).1 hq

/-- Witness for C4 on a three-plugin chain where `a` starts, `b` always
fails, and `c` is never attempted. -/
theorem C4_sequential_abort_witness :
    resolveInitializationOrder exS4 = .ok (["a"] ++ "b" :: ["c"]) ∧
    (initializePlugins exS4 exS4behav).result = .error (.initFailed "b" 3) ∧
    (initializePlugins exS4 exS4behav).attempted.map Prod.fst = ["a"] ++ ["b"] ∧
    (∀ q ∈ (["c"] : List Name), q ∉ (initializePlugins exS4 exS4behav).attempted.map Prod.fst) ∧
    (∀ p ∈ (["a"] : List Name),
      ∃ e', mapGet (initializePlugins exS4 exS4behav).state.plugins p = some e' ∧
        e'.isInitialized = true) := by
  have hres : resolveInitializationOrder exS4 = .ok (["a"] ++ "b" :: ["c"]) := rfl
  have hok : ∀ p ∈ (["a"] : List Name), ∃ k, k < retryOf exS4 p ∧ exS4behav p k = true := by
    intro p hp
    rw [List.mem_singleton] at hp
    subst hp
    exact ⟨0, by decide, rfl⟩
  have hfail : ∀ j, j < retryOf exS4 "b" → exS4behav "b" j = false := fun j _ => rfl
  have hnf : 1 ≤ retryOf exS4 "b" := by decide
  have h := C4_sequential_abort exS4 exS4behav ["a"] "b" ["c"] hres hok hfail hnf
  have hret : retryOf exS4 "b" = 3 := rfl
  rw [hret] at h
  exact ⟨hres, h.1, h.2.1, h.2.2.1, h.2.2.2⟩

/-- Claim C2: for a registered plugin, termination removes the entry
and its dependency edges exactly when `destroy` succeeds or is absent;
when `destroy` fails, the error is logged, the entry and its edges stay
registered, and the call still returns normally. -/
theorem C2_terminate (s : ManagerState) (name : Name) (e : PluginEntry)
    (he : mapGet s.plugins name = some e) :
    (terminatePlugin s name).result = .ok () ∧
    (e.plugin.destroyOutcome ≠ some false →
      mapGet (terminatePlugin s name).state.plugins name = none ∧
      mapGet (terminatePlugin s name).state.dependencies name = none ∧
      (∀ q, q ≠ name →
        mapGet (terminatePlugin s name).state.plugins q = mapGet s.plugins q ∧
        mapGet (terminatePlugin s name).state.dependencies q = mapGet s.dependencies q)) ∧
    (e.plugin.destroyOutcome = some false →
      (terminatePlugin s name).state = s ∧
      LogEvent.termFailed name ∈ (terminatePlugin s name).logs) := by
  rcases hd : e.plugin.destroyOutcome with _ | b
  · have ht : terminatePlugin s name =
        ⟨⟨mapDelete s.plugins name, mapDelete s.dependencies name⟩, 0,
         [.terminating name], .ok ()⟩ := by
      simp [terminatePlugin, he, hd]
    rw [ht]
    refine ⟨rfl, ?_, ?_⟩
    · intro _
      exact ⟨mapGet_mapDelete_self _ _, mapGet_mapDelete_self _ _,
        fun q hq => ⟨mapGet_mapDelete_ne _ _ _ hq, mapGet_mapDelete_ne _ _ _ hq⟩⟩
    · intro hcontra
      exact absurd hcontra (by simp)
  · cases b
    · have ht : terminatePlugin s name =
          ⟨s, 0, [.terminating name, .termFailed name], .ok ()⟩ := by
        simp [terminatePlugin, he, hd]
      rw [ht]
      refine ⟨rfl, ?_, fun _ => ⟨rfl, by simp⟩⟩
      intro hne
      exact absurd rfl hne
    · have ht : terminatePlugin s name =
          ⟨⟨mapDelete s.plugins name, mapDelete s.dependencies name⟩, 0,
           [.terminating name], .ok ()⟩ := by
        simp [terminatePlugin, he, hd]
      rw [ht]
      refine ⟨rfl, ?_, ?_⟩
      · intro _
        exact ⟨mapGet_mapDelete_self _ _, mapGet_mapDelete_self _ _,
          fun q hq => ⟨mapGet_mapDelete_ne _ _ _ hq, mapGet_mapDelete_ne _ _ _ hq⟩⟩
      · intro hcontra
        exact absurd hcontra (by simp)

/-- Witness for C2: in `exS2`, terminating `p` (failing `destroy`)
leaves the registry untouched and logs the failure, while terminating
`q` (no `destroy`) removes its entry and its edges. -/
theorem C2_terminate_witness :
    (terminatePlugin exS2 "p").result = .ok () ∧
    (terminatePlugin exS2 "p").state = exS2 ∧
    LogEvent.termFailed "p" ∈ (terminatePlugin exS2 "p").logs ∧
    (terminatePlugin exS2 "q").result = .ok () ∧
    mapGet (terminatePlugin exS2 "q").state.plugins "q" = none ∧
    mapGet (terminatePlugin exS2 "q").state.dependencies "q" = none ∧
    mapGet (terminatePlugin exS2 "q").state.plugins "p" = mapGet exS2.plugins "p" := by
  have hp : mapGet exS2.plugins "p" =
      some ⟨pluginDestroyFail, baseConfig ["q"], true, ⟨0, 0, 0⟩⟩ := rfl
  have hq : mapGet exS2.plugins "q" = some ⟨pluginOk, baseConfig [], true, ⟨0, 0, 0⟩⟩ := rfl
  have h1 := C2_terminate exS2 "p" _ hp
  have h2 := C2_terminate exS2 "q" _ hq
  obtain ⟨hs, hl⟩ := h1.2.2 rfl
  obtain ⟨hn1, hn2, hfr⟩ := h2.2.1 (by simp [pluginOk])
  exact ⟨h1.1, hs, hl, h2.1, hn1, hn2, (hfr "p" (by decide)).1⟩

/-- Claim C6 as written is false: in `exS6` the plugin's `destroy`
fails, and the restart's catch block then skips both the
`isInitialized = false` reset and the re-initialization — the entry
stays initialized and startup is never invoked. -/
theorem C6_counterexample :
    (mapGet (restartPlugin exS6 "p" (fun _ => true)).state.plugins "p").map
      (fun e => e.isInitialized) = some true ∧
    (restartPlugin exS6 "p" (fun _ => true)).calls = 0 ∧
    (mapGet exS6.plugins "p").map (fun e => e.plugin.destroyOutcome) = some (some false) :=
  ⟨rfl, rfl, rfl⟩

/-- Claim C6 (amended): a restart never throws; a `destroy` failure is
caught and logged but aborts the restart (state untouched, no startup
call); when `destroy` succeeds or is absent, `isInitialized` is reset
to false and single-plugin initialization re-runs, its own failure
again being caught and logged. -/
theorem C6_restart (s : ManagerState) (name : Name) (behav : Nat → Bool) :
    (restartPlugin s name behav).result = .ok () ∧
    ∀ e, mapGet s.plugins name = some e →
      (e.plugin.destroyOutcome = some false →
        (restartPlugin s name behav).state = s ∧
        (restartPlugin s name behav).calls = 0 ∧
        LogEvent.restartFailed name ∈ (restartPlugin s name behav).logs) ∧
      (e.plugin.destroyOutcome ≠ some false →
        (1 ≤ e.config.errorHandling.retryAttempts →
          (∀ j, j < e.config.errorHandling.retryAttempts → behav j = false) →
          mapGet (restartPlugin s name behav).state.plugins name =
            some (bumpErr { e with isInitialized := false }
              e.config.errorHandling.retryAttempts) ∧
          LogEvent.restartFailed name ∈ (restartPlugin s name behav).logs) ∧
        (∀ k, k < e.config.errorHandling.retryAttempts → behav k = true →
          (∀ j, j < k → behav j = false) →
          mapGet (restartPlugin s name behav).state.plugins name =
            some { bumpErr { e with isInitialized := false } k with
              isInitialized := true })) := by
  constructor
  · cases he : mapGet s.plugins name with
    | none => simp [restartPlugin, he]
    | some e =>
      rcases hd : e.plugin.destroyOutcome with _ | b
      · cases hr : (initializePlugin
            { s with plugins := mapSet s.plugins name { e with isInitialized := false } }
            name behav).result with
        | ok u => simp [restartPlugin, he, hd, hr]
        | error er => simp [restartPlugin, he, hd, hr]
      · cases b
        · simp [restartPlugin, he, hd]
        · cases hr : (initializePlugin
              { s with plugins := mapSet s.plugins name { e with isInitialized := false } }
              name behav).result with
          | ok u => simp [restartPlugin, he, hd, hr]
          | error er => simp [restartPlugin, he, hd, hr]
  · intro e he
    constructor
    · intro hd
      have ht : restartPlugin s name behav =
          ⟨s, 0, [.restarting name, .restartFailed name], .ok ()⟩ := by
        simp [restartPlugin, he, hd]
      rw [ht]
      exact ⟨rfl, rfl, by simp⟩
    · intro hd
      have he1 : mapGet
          ({ s with plugins := mapSet s.plugins name { e with isInitialized := false } } :
            ManagerState).plugins name = some { e with isInitialized := false } :=
        mapGet_mapSet_self _ _ _
      constructor
      · intro hn hf
        have hfail := initializePlugin_fail he1 hn hf
        have hst : (restartPlugin s name behav).state =
            (initializePlugin
              { s with plugins := mapSet s.plugins name { e with isInitialized := false } }
              name behav).state ∧
            LogEvent.restartFailed name ∈ (restartPlugin s name behav).logs := by
          rcases hdo : e.plugin.destroyOutcome with _ | b
          · rw [hfail]
            simp [restartPlugin, he, hdo, hfail]
          · cases b
            · exact absurd hdo hd
            · rw [hfail]
              simp [restartPlugin, he, hdo, hfail]
        refine ⟨?_, hst.2⟩
        rw [hst.1, hfail]
        exact mapGet_mapSet_self _ _ _
      · intro k hk hbk hbf
        have hsucc := initializePlugin_success he1 hk hbk hbf
        have hst : (restartPlugin s name behav).state =
            (initializePlugin
              { s with plugins := mapSet s.plugins name { e with isInitialized := false } }
              name behav).state := by
          rcases hdo : e.plugin.destroyOutcome with _ | b
          · rw [hsucc]
            simp [restartPlugin, he, hdo, hsucc]
          · cases b
            · exact absurd hdo hd
            · rw [hsucc]
              simp [restartPlugin, he, hdo, hsucc]
        rw [hst, hsucc]
        exact mapGet_mapSet_self _ _ _

/-- Witness for the amended C6: restarting `p` in `exS6` (failing
`destroy`) leaves everything unchanged without throwing; restarting `q`
in `exS2` (no `destroy`, always-failing startup) swallows the failure
and leaves the entry uninitialized. -/
theorem C6_restart_witness :
    (restartPlugin exS6 "p" (fun _ => true)).result = .ok () ∧
    (restartPlugin exS6 "p" (fun _ => true)).state = exS6 ∧
    (restartPlugin exS6 "p" (fun _ => true)).calls = 0 ∧
    LogEvent.restartFailed "p" ∈ (restartPlugin exS6 "p" (fun _ => true)).logs ∧
    (restartPlugin exS2 "q" (fun _ => false)).result = .ok () ∧
    (mapGet (restartPlugin exS2 "q" (fun _ => false)).state.plugins "q").map
      (fun e => e.isInitialized) = some false := by
  have h6 := C6_restart exS6 "p" (fun _ => true)
  have he6 : mapGet exS6.plugins "p" =
      some ⟨pluginDestroyFail, baseConfig [], true, ⟨0, 5, 0⟩⟩ := rfl
  obtain ⟨hst, hc, hl⟩ := (h6.2 _ he6).1 rfl
  have h2 := C6_restart exS2 "q" (fun _ => false)
  have he2 : mapGet exS2.plugins "q" = some ⟨pluginOk, baseConfig [], true, ⟨0, 0, 0⟩⟩ := rfl
  obtain ⟨hm, _⟩ := ((h2.2 _ he2).2 (by simp [pluginOk])).1 (by decide) (fun j _ => rfl)
  refine ⟨h6.1, hst, hc, hl, h2.1, ?_⟩
  rw [hm]
  rfl

/-- Claim C8: registering an id that is already present fails with the
duplicate-registration error (the check precedes every mutation), so
the plugin map and dependency map are unchanged and the first
registration's entry is unaffected. -/
theorem C8_duplicate_registration (s : ManagerState) (now : Nat) (name : Name)
    (p : Plugin) (cfg : PluginConfigInput)
    (h : (mapGet s.plugins name).isSome = true) :
    registerPlugin s now name p cfg = .error (.duplicateRegistration name) ∧
    stepOp s (.regOp now name p cfg) = s := by
  have hv : validatePluginConfig s name cfg = .error (.duplicateRegistration name) := by
    simp [validatePluginConfig, h]
  constructor
  · simp [registerPlugin, hv]
  · simp [stepOp, registerPlugin, hv, Except.toOption]

/-- Witness for C8: registering `p` twice into an initially empty
registry fails the second call and leaves the registry unchanged. -/
theorem C8_duplicate_registration_witness :
    registerPlugin ⟨[], []⟩ 0 "p" pluginOk ⟨none, none, none, none⟩ = .ok exReg ∧
    (mapGet exReg.plugins "p").isSome = true ∧
    registerPlugin exReg 5 "p" pluginOk ⟨none, none, none, none⟩ =
      .error (.duplicateRegistration "p") ∧
    stepOp exReg (.regOp 5 "p" pluginOk ⟨none, none, none, none⟩) = exReg := by
  have h := C8_duplicate_registration exReg 5 "p" pluginOk ⟨none, none, none, none⟩ rfl
  exact ⟨rfl, rfl, h.1, h.2⟩

/-- Claim C7 as written is false: with registration at monitor start
(time 0) and the clock at 31,000 ms, the ticks so far (10,000, 20,000,
30,000 ms) all have elapsed ≤ 30,000 ms, so no warning has been logged,
although the plugin's heartbeat is 31,000 ms old. -/
theorem C7_counterexample :
    monitorWarnings exOne 31000 = [] ∧
    tickTimes 31000 = [10000, 20000, 30000] ∧
    pluginNames exOne = ["p"] ∧
    30000 < 31000 -
      ((mapGet exOne.plugins "p").map (fun e => e.metrics.lastHeartbeat)).getD 31000 :=
  ⟨rfl, rfl, rfl, by decide⟩

/-- Claim C7 (amended): a tick warns about exactly the entries whose
heartbeat is strictly more than 30,000 ms old at the tick's time, and a
tick mutates no entry when every error count is at or below the
threshold of 10 (in particular it never refreshes `lastHeartbeat` or
`errorCount` in the claim's scenario); with registration at monitor
start, no warning has been logged 31,000 ms later — the first warning
arrives with the 40,000 ms tick. -/
theorem C7_heartbeat_warnings :
    (∀ (s : ManagerState) (behav : Name → Nat → Bool),
      (∀ kv ∈ s.plugins, kv.2.metrics.errorCount ≤ 10) → tickStep s behav = s) ∧
    (∀ (s : ManagerState) (now : Nat) (p : Name),
      p ∈ tickWarnings s now ↔
        ∃ e, (p, e) ∈ s.plugins ∧ 30000 < now - e.metrics.lastHeartbeat) ∧
    monitorWarnings exOne 31000 = [] ∧
    monitorWarnings exOne 40000 = [(40000, "p")] := by
  refine ⟨?_, ?_, rfl, rfl⟩
  · intro s behav h
    have hfil : s.plugins.filter (fun kv => decide (10 < kv.2.metrics.errorCount)) = [] := by
      rw [List.filter_eq_nil_iff]
      intro kv hkv
      have := h kv hkv
      simp only [decide_eq_true_eq]
      omega
    rw [tickStep, tickDispatch, hfil]
    rfl
  · intro s now p
    rw [tickWarnings]
    simp only [List.mem_map, List.mem_filter, decide_eq_true_eq]
    constructor
    · rintro ⟨⟨a, e⟩, ⟨hmem, hlt⟩, rfl⟩
      exact ⟨e, hmem, hlt⟩
    · rintro ⟨e, hmem, hlt⟩
      exact ⟨(p, e), ⟨hmem, hlt⟩, rfl⟩

/-- Witness for the amended C7 at the concrete one-plugin registry. -/
theorem C7_heartbeat_warnings_witness :
    tickStep exOne (fun _ _ => true) = exOne ∧
    ("p" : Name) ∈ tickWarnings exOne 40000 := by
  have h := C7_heartbeat_warnings
  refine ⟨h.1 exOne _ (by decide), ?_⟩
  rw [h.2.1]
  exact ⟨mkEntry pluginOk [], List.mem_singleton.mpr rfl, by decide⟩

theorem initLoop_errorCount (name : Name) (behav : Nat → Bool) (n : Nat) :
    ∀ (r a : Nat) (e : PluginEntry),
      e.metrics.errorCount ≤ (initLoop name behav n a e r).entry.metrics.errorCount := by
  intro r
  induction r with
  | zero => intro a e; exact Nat.le_refl _
  | succ r' ih =>
    intro a e
    by_cases hb : behav a = true
    · have hr : (initLoop name behav n a e (r' + 1)).entry = { e with isInitialized := true } := by
        simp [initLoop, hb]
      rw [hr]
    · by_cases hc : a + 1 = n
      · have hr : (initLoop name behav n a e (r' + 1)).entry = bumpErr e 1 := by
          simp [initLoop, hb, hc, bumpErr]
        rw [hr]
        exact Nat.le_add_right _ _
      · have hr : (initLoop name behav n a e (r' + 1)).entry =
            (initLoop name behav n (a + 1) (bumpErr e 1) r').entry := by
          simp [initLoop, hb, hc, bumpErr]
        rw [hr]
        exact le_trans (Nat.le_add_right _ 1) (ih (a + 1) (bumpErr e 1))

theorem initializePlugin_mono {s : ManagerState} {name : Name} {behav : Nat → Bool} :
    ∀ (q : Name) (e' : PluginEntry),
      mapGet (initializePlugin s name behav).state.plugins q = some e' →
      ∃ e, mapGet s.plugins q = some e ∧
        e.metrics.errorCount ≤ e'.metrics.errorCount := by
  intro q e' h
  by_cases hq : q = name
  · subst hq
    cases he : mapGet s.plugins q with
    | none =>
      rw [show (initializePlugin s q behav).state = s from by simp [initializePlugin, he]] at h
      rw [he] at h
      simp at h
    | some e =>
      have hst : mapGet (initializePlugin s q behav).state.plugins q =
          some (initLoop q behav e.config.errorHandling.retryAttempts 0 e
            e.config.errorHandling.retryAttempts).entry := by
        simp only [initializePlugin, he]
        exact mapGet_mapSet_self _ _ _
      rw [hst] at h
      injection h with h
      exact ⟨e, rfl, by rw [← h]; exact initLoop_errorCount q behav _ _ 0 e⟩
  · rw [initializePlugin_frame hq] at h
    exact ⟨e', h, Nat.le_refl _⟩

theorem mapGet_mapDelete_some {β : Type} {m : List (Name × β)} {k q : Name} {v : β}
    (h : mapGet (mapDelete m k) q = some v) : mapGet m q = some v := by
  by_cases hq : q = k
  · subst hq
    rw [mapGet_mapDelete_self] at h
    exact absurd h (by simp)
  · rwa [mapGet_mapDelete_ne _ _ _ hq] at h

theorem terminate_mono {s : ManagerState} {name : Name} :
    ∀ (q : Name) (e' : PluginEntry),
      mapGet (terminatePlugin s name).state.plugins q = some e' →
      ∃ e, mapGet s.plugins q = some e ∧ e.metrics.errorCount ≤ e'.metrics.errorCount := by
  intro q e' h
  cases he : mapGet s.plugins name with
  | none =>
    rw [show (terminatePlugin s name).state = s from by simp [terminatePlugin, he]] at h
    exact ⟨e', h, Nat.le_refl _⟩
  | some e =>
    rcases hd : e.plugin.destroyOutcome with _ | b
    · rw [show (terminatePlugin s name).state =
          ⟨mapDelete s.plugins name, mapDelete s.dependencies name⟩ from by
        simp [terminatePlugin, he, hd]] at h
      exact ⟨e', mapGet_mapDelete_some h, Nat.le_refl _⟩
    · cases b
      · rw [show (terminatePlugin s name).state = s from by
          simp [terminatePlugin, he, hd]] at h
        exact ⟨e', h, Nat.le_refl _⟩
      · rw [show (terminatePlugin s name).state =
            ⟨mapDelete s.plugins name, mapDelete s.dependencies name⟩ from by
          simp [terminatePlugin, he, hd]] at h
        exact ⟨e', mapGet_mapDelete_some h, Nat.le_refl _⟩

theorem restart_mono {s : ManagerState} {name : Name} {behav : Nat → Bool} :
    ∀ (q : Name) (e' : PluginEntry),
      mapGet (restartPlugin s name behav).state.plugins q = some e' →
      ∃ e, mapGet s.plugins q = some e ∧ e.metrics.errorCount ≤ e'.metrics.errorCount := by
  intro q e' h
  cases he : mapGet s.plugins name with
  | none =>
    rw [show (restartPlugin s name behav).state = s from by simp [restartPlugin, he]] at h
    exact ⟨e', h, Nat.le_refl _⟩
  | some e =>
    have hproceed : e.plugin.destroyOutcome ≠ some false →
        (restartPlugin s name behav).state =
          (initializePlugin
            { s with plugins := mapSet s.plugins name { e with isInitialized := false } }
            name behav).state := by
      intro hne
      rcases hd : e.plugin.destroyOutcome with _ | b
      · cases hr : (initializePlugin
            { s with plugins := mapSet s.plugins name { e with isInitialized := false } }
            name behav).result with
        | ok u => simp [restartPlugin, he, hd, hr]
        | error er => simp [restartPlugin, he, hd, hr]
      · cases b
        · exact absurd hd hne
        · cases hr : (initializePlugin
              { s with plugins := mapSet s.plugins name { e with isInitialized := false } }
              name behav).result with
          | ok u => simp [restartPlugin, he, hd, hr]
          | error er => simp [restartPlugin, he, hd, hr]
    by_cases hd : e.plugin.destroyOutcome = some false
    · rw [show (restartPlugin s name behav).state = s from by simp [restartPlugin, he, hd]] at h
      exact ⟨e', h, Nat.le_refl _⟩
    · rw [hproceed hd] at h
      obtain ⟨e₁, h₁, hle⟩ := initializePlugin_mono q e' h
      have h₁' : mapGet (mapSet s.plugins name { e with isInitialized := false }) q =
          some e₁ := h₁
      by_cases hq : q = name
      · subst hq
        rw [mapGet_mapSet_self] at h₁'
        injection h₁' with h₁'
        refine ⟨e, he, ?_⟩
        rw [← h₁'] at hle
        exact hle
      · rw [mapGet_mapSet_ne _ _ _ _ hq] at h₁'
        exact ⟨e₁, h₁', hle⟩

theorem handle_mono {s : ManagerState} {name : Name} {behav : Nat → Bool} :
    ∀ (q : Name) (e' : PluginEntry),
      mapGet (handlePluginFailure s name behav).plugins q = some e' →
      ∃ e, mapGet s.plugins q = some e ∧ e.metrics.errorCount ≤ e'.metrics.errorCount := by
  intro q e' h
  cases he : mapGet s.plugins name with
  | none =>
    rw [show handlePluginFailure s name behav = s from by simp [handlePluginFailure, he]] at h
    exact ⟨e', h, Nat.le_refl _⟩
  | some e =>
    cases hrs : e.config.errorHandling.recoveryStrategy with
    | restart =>
      rw [show handlePluginFailure s name behav = (restartPlugin s name behav).state from by
        simp [handlePluginFailure, he, hrs]] at h
      exact restart_mono q e' h
    | failover =>
      rw [show handlePluginFailure s name behav = s from by
        simp [handlePluginFailure, he, hrs, failoverPlugin]] at h
      exact ⟨e', h, Nat.le_refl _⟩
    | terminate =>
      rw [show handlePluginFailure s name behav = (terminatePlugin s name).state from by
        simp [handlePluginFailure, he, hrs]] at h
      exact terminate_mono q e' h

theorem foldl_handle_mono (behav : Name → Nat → Bool) :
    ∀ (ds : List Name) (s : ManagerState) (q : Name) (e' : PluginEntry),
      mapGet (ds.foldl (fun st n => handlePluginFailure st n (behav n)) s).plugins q =
        some e' →
      ∃ e, mapGet s.plugins q = some e ∧ e.metrics.errorCount ≤ e'.metrics.errorCount := by
  intro ds
  induction ds with
  | nil => intro s q e' h; exact ⟨e', h, Nat.le_refl _⟩
  | cons n rest ih =>
    intro s q e' h
    rw [List.foldl_cons] at h
    obtain ⟨e₁, h₁, hle₁⟩ := ih _ q e' h
    obtain ⟨e₀, h₀, hle₀⟩ := handle_mono q e₁ h₁
    exact ⟨e₀, h₀, le_trans hle₀ hle₁⟩

theorem initSeq_mono (behav : Name → Nat → Bool) :
    ∀ (ns : List Name) (s : ManagerState) (q : Name) (e' : PluginEntry),
      mapGet (initSeq behav s ns).state.plugins q = some e' →
      ∃ e, mapGet s.plugins q = some e ∧ e.metrics.errorCount ≤ e'.metrics.errorCount := by
  intro ns
  induction ns with
  | nil => intro s q e' h; exact ⟨e', h, Nat.le_refl _⟩
  | cons n rest ih =>
    intro s q e' h
    cases hr : (initializePlugin s n (behav n)).result with
    | error er =>
      rw [show (initSeq behav s (n :: rest)).state = (initializePlugin s n (behav n)).state
        from by simp [initSeq, hr]] at h
      exact initializePlugin_mono q e' h
    | ok u =>
      rw [show (initSeq behav s (n :: rest)).state =
          (initSeq behav (initializePlugin s n (behav n)).state rest).state
        from by simp [initSeq, hr]] at h
      obtain ⟨e₁, h₁, hle₁⟩ := ih _ q e' h
      obtain ⟨e₀, h₀, hle₀⟩ := initializePlugin_mono q e₁ h₁
      exact ⟨e₀, h₀, le_trans hle₀ hle₁⟩

theorem registerPlugin_ok_shape {s : ManagerState} {now : Nat} {name : Name}
    {p : Plugin} {cfg : PluginConfigInput} {s' : ManagerState}
    (h : registerPlugin s now name p cfg = .ok s') :
    (mapGet s.plugins name).isSome = false ∧
    s'.plugins = mapSet s.plugins name
      { plugin := p, config := normalizeConfig cfg, isInitialized := false,
        metrics := ⟨now, 0, 0⟩ } := by
  by_cases hv : (mapGet s.plugins name).isSome = true
  · have hval : validatePluginConfig s name cfg = .error (.duplicateRegistration name) := by
      simp [validatePluginConfig, hv]
    simp [registerPlugin, hval] at h
  · cases hv2 : validatePluginConfig s name cfg with
    | error er => simp [registerPlugin, hv2] at h
    | ok u =>
      simp only [registerPlugin, hv2] at h
      injection h with h
      exact ⟨by simpa using hv, by rw [← h]⟩

/-- Claim C10: no manager operation ever decreases or resets
`metrics.errorCount` of a surviving entry — failed startup attempts
only increment it, and registration, successful startup, restart,
termination, failover and monitor ticks never lower it — so once an
entry's error count exceeds the threshold of 10 it stays above it
unless the entry is removed, and every monitor tick re-dispatches
recovery for that plugin. -/
theorem C10_errorCount_monotone :
    (∀ (s : ManagerState) (op : Op) (q : Name) (e e' : PluginEntry),
      mapGet s.plugins q = some e →
      mapGet (stepOp s op).plugins q = some e' →
      e.metrics.errorCount ≤ e'.metrics.errorCount ∧
      (10 < e.metrics.errorCount → 10 < e'.metrics.errorCount)) ∧
    (∀ (s : ManagerState) (q : Name) (e : PluginEntry),
      mapGet s.plugins q = some e → 10 < e.metrics.errorCount →
      q ∈ tickDispatch s) := by
  constructor
  · intro s op q e e' hq hq'
    have hmono : ∃ e₀, mapGet s.plugins q = some e₀ ∧
        e₀.metrics.errorCount ≤ e'.metrics.errorCount := by
      cases op with
      | regOp now name p cfg =>
        cases hreg : registerPlugin s now name p cfg with
        | error er =>
          rw [show stepOp s (.regOp now name p cfg) = s from by
            simp [stepOp, hreg, Except.toOption]] at hq'
          exact ⟨e', hq', Nat.le_refl _⟩
        | ok s' =>
          obtain ⟨habs, hpl⟩ := registerPlugin_ok_shape hreg
          rw [show stepOp s (.regOp now name p cfg) = s' from by
            simp [stepOp, hreg, Except.toOption]] at hq'
          rw [hpl] at hq'
          by_cases hqn : q = name
          · subst hqn
            rw [hq] at habs
            simp at habs
          · rw [mapGet_mapSet_ne _ _ _ _ hqn] at hq'
            exact ⟨e', hq', Nat.le_refl _⟩
      | initAllOp behav =>
        cases hres : resolveInitializationOrder s with
        | error er =>
          rw [show stepOp s (.initAllOp behav) = s from by
            simp [stepOp, initializePlugins, hres]] at hq'
          exact ⟨e', hq', Nat.le_refl _⟩
        | ok order =>
          rw [show stepOp s (.initAllOp behav) = (initSeq behav s order).state from by
            simp [stepOp, initializePlugins, hres]] at hq'
          exact initSeq_mono behav order s q e' hq'
      | initOneOp name behav => exact initializePlugin_mono q e' hq'
      | tickOp behav => exact foldl_handle_mono behav (tickDispatch s) s q e' hq'
      | restartOp name behav => exact restart_mono q e' hq'
      | terminateOp name => exact terminate_mono q e' hq'
      | failoverOp name => exact ⟨e', hq', Nat.le_refl _⟩
    obtain ⟨e₀, h₀, hle⟩ := hmono
    rw [hq] at h₀
    injection h₀ with h₀
    rw [← h₀] at hle
    exact ⟨hle, fun hgt => lt_of_lt_of_le hgt hle⟩
  · intro s q e hq hgt
    have hmem : (q, e) ∈ s.plugins := mapGet_mem hq
    rw [tickDispatch]
    refine List.mem_map.mpr ⟨(q, e), ?_, rfl⟩
    rw [List.mem_filter]
    refine ⟨hmem, ?_⟩
    simp only [decide_eq_true_eq]
    exact hgt

/-- Witness for C10 at a concrete entry with error count 11: the count
survives a failover dispatch unchanged and the entry is on the tick's
dispatch list. -/
theorem C10_errorCount_monotone_witness :
    (11 : Nat) ≤ 11 ∧ ((10 : Nat) < 11 → (10 : Nat) < 11) ∧
    ("p" : Name) ∈ tickDispatch exHigh := by
  have he : mapGet exHigh.plugins "p" =
      some ⟨pluginOk, baseConfig [], true, ⟨0, 11, 0⟩⟩ := rfl
  have h1 := C10_errorCount_monotone.1 exHigh (.failoverOp "q") "p" _ _ he rfl
  have h2 := C10_errorCount_monotone.2 exHigh "p" _ he (by decide)
  exact ⟨h1.1, h1.2, h2⟩

/-- Witness for the amended C9 on a concrete acyclic registry with a
missing dependency. -/
theorem C9_missing_dependency_witness :
    (∀ n, ¬ Relation.TransGen (Edge exMiss) n n) ∧
    (∃ m ∈ pluginNames exMiss, ∃ d ∈ depsOf exMiss m, d ∉ pluginNames exMiss) ∧
    ∃ d m, resolveInitializationOrder exMiss = .error (.missingDependency d m) ∧
      m ∈ pluginNames exMiss ∧ d ∈ depsOf exMiss m ∧ d ∉ pluginNames exMiss := by
  have hacyc := transGen_irrefl_of_no_edge no_edge_exMiss
  have hmiss : ∃ m ∈ pluginNames exMiss, ∃ d ∈ depsOf exMiss m, d ∉ pluginNames exMiss := by
    refine ⟨"a", by decide, "ghost", ?_, by decide⟩
    decide
  exact ⟨hacyc, hmiss, C9_missing_dependency exMiss hacyc hmiss⟩

end PluginSpec
